import Mathlib

/-!
# Verification of the Telestack real-time document database

Shallow embedding of the core of `src/TelestackrealtimeDB/src/index.ts`
(the Cloudflare-worker document engine backed by a D1/SQLite store) and of
the client pieces of `src/TelestackSDK/src/index.ts` that the frozen
claims are about, together with proofs settling those claims.

Conventions used throughout:

* JSON payloads are modelled by the inductive `JsonVal` (objects are
  association lists in insertion order, as JS objects and SQLite JSON
  functions preserve key order for our purposes).
* The D1/SQLite store is modelled by `DB`: the `documents` and `events`
  tables, the `events` AUTOINCREMENT counter, the implicit rowid counter
  of the `documents` table, and the connection-level `last_insert_rowid()`
  register.  The `events` list is kept newest-first, so the latest event
  appended for a document is the first match of `List.find?`.
* Each HTTP handler becomes a pure function from the request data and the
  current `DB` to a response, the successor `DB`, and the list of
  publications dispatched to Centrifugo.
-/

namespace Telestack

/-- JSON values, as produced by `JSON.parse` and stored in the `data`
columns.  Objects are association lists of key/value pairs. -/
inductive JsonVal where
  | null : JsonVal
  | bool (b : Bool) : JsonVal
  | num (n : Int) : JsonVal
  | str (s : String) : JsonVal
  | arr (elems : List JsonVal) : JsonVal
  | obj (fields : List (String × JsonVal)) : JsonVal

/-- The fields of a JSON object (non-objects contribute no fields, as in
RFC 7386 where a non-object target is replaced by `{}`). -/
def JsonVal.objFields : JsonVal → List (String × JsonVal)
  | .obj fs => fs
  | _ => []

/-- Whether a JSON value is `null`. -/
def JsonVal.isNull : JsonVal → Bool
  | .null => true
  | _ => false

/-- Key access in a JSON object: the first binding of `k`, if any. -/
def lookupKey : List (String × JsonVal) → String → Option JsonVal
  | [], _ => none
  | (a, b) :: rest, k => if k = a then some b else lookupKey rest k

/-- Remove every binding of a key from an association list. -/
def eraseKey : List (String × JsonVal) → String → List (String × JsonVal)
  | [], _ => []
  | (a, b) :: rest, k => if a = k then eraseKey rest k else (a, b) :: eraseKey rest k

/-- Whether an association list binds a key. -/
def hasKey : List (String × JsonVal) → String → Bool
  | [], _ => false
  | (a, _) :: rest, k => if a = k then true else hasKey rest k

/-- Replace every binding of `k` by `(k, v)`, in place. -/
def mapReplaceKey : List (String × JsonVal) → String → JsonVal → List (String × JsonVal)
  | [], _, _ => []
  | (a, b) :: rest, k, v =>
    if a = k then (k, v) :: mapReplaceKey rest k v
    else (a, b) :: mapReplaceKey rest k v

/-- Set a key in an association list, replacing an existing binding in
place or appending a new one at the end. -/
def setKey (fs : List (String × JsonVal)) (k : String) (v : JsonVal) :
    List (String × JsonVal) :=
  if hasKey fs k then mapReplaceKey fs k v else fs ++ [(k, v)]

mutual

/-- SQLite's `json_patch(target, patch)`, which implements RFC 7386 JSON
merge patch: a non-object patch replaces the target; an object patch is
merged key by key into the target, `null`-valued patch keys erasing the
corresponding target key and object-valued patch keys recursing. -/
def mergePatch : JsonVal → JsonVal → JsonVal
  | t, .obj pf => .obj (applyPatchFields t.objFields pf)
  | _, p => p
termination_by t p => sizeOf p

/-- Apply the key/value pairs of an object patch to the fields of the
target object, in patch order. -/
def applyPatchFields (tf : List (String × JsonVal)) :
    List (String × JsonVal) → List (String × JsonVal)
  | [] => tf
  | (k, v) :: rest =>
    if v.isNull then applyPatchFields (eraseKey tf k) rest
    else applyPatchFields (setKey tf k (mergePatch ((lookupKey tf k).getD .null) v)) rest
termination_by pf => sizeOf pf

end

/-! ## String utilities

The JavaScript source manipulates paths with `split('/')`, `join('/')`,
`replace(/\//g, '_')` and friends.  We model them by structurally
recursive functions over the character list of a `String`, so that every
definition evaluates inside the kernel. -/

/-- `split('/')` on a character list: always returns at least one group,
with empty groups for leading, trailing or doubled separators (exactly as
`String.prototype.split`). -/
def splitChars : List Char → List (List Char)
  | [] => [[]]
  | c :: cs =>
    if c = '/' then [] :: splitChars cs
    else
      match splitChars cs with
      | g :: gs => (c :: g) :: gs
      | [] => [[c]]

/-- `join('/')` on character-list groups. -/
def joinChars : List (List Char) → List Char
  | [] => []
  | [g] => g
  | g :: g2 :: gs => g ++ '/' :: joinChars (g2 :: gs)

/-- `path.split('/')` on strings. -/
def splitSlash (s : String) : List String :=
  (splitChars s.toList).map (fun cs => ⟨cs⟩)

/-- `segments.join('/')` on strings. -/
def joinSegs (segs : List String) : String :=
  ⟨joinChars (segs.map String.toList)⟩

/-- `path.replace(/\//g, '_')`: the transform producing broker channel
names from paths. -/
def chanName (s : String) : String :=
  ⟨s.toList.map (fun c => if c = '/' then '_' else c)⟩

/-- `parts[parts.length - 1]` of `path.split('/')` (batch ops address
documents by `<...>/<collection>/<id>` paths with at least two
segments; `split` never returns an empty list). -/
def lastSeg (path : String) : String :=
  (splitSlash path).getLast?.getD ""

/-- `parts[parts.length - 2]` of `path.split('/')`. -/
def sndLastSeg (path : String) : String :=
  (splitSlash path).dropLast.getLast?.getD ""

/-- `path.split('/').slice(0, -1).join('/')`: the containing collection's
path. -/
def collPathOf (path : String) : String :=
  joinSegs (splitSlash path).dropLast

/-! ## The storage layer

The two D1 tables created by `initDatabase`, plus the SQLite bookkeeping
the handlers rely on: the `events.version INTEGER PRIMARY KEY
AUTOINCREMENT` counter, the implicit rowid counter of the `documents`
table, and the connection-level `last_insert_rowid()` register. -/

/-- A row of the `documents` table.  `deleted` models
`deleted_at IS NOT NULL` (the wall-clock timestamp itself is advisory).
`created_at`/`updated_at` are omitted for the same reason. -/
structure DocRow where
  id : String
  workspace_id : String
  collection_name : String
  path : String
  user_id : String
  data : JsonVal
  version : Nat
  deleted : Bool

/-- A row of the append-only `events` table.  `version` is the
auto-assigned row id. -/
structure EventRow where
  version : Nat
  id : String
  doc_id : String
  workspace_id : String
  event_type : String
  payload : JsonVal

/-- The database state.  `events` is kept newest-first, so the latest
event appended for a document is the first `List.find?` match.
`nextEventVersion` is the AUTOINCREMENT counter of `events` (starting at
1), `nextDocRowid` the implicit rowid counter of `documents`, and
`lastRowId` the connection's `last_insert_rowid()` register (what D1
reports as `meta.last_row_id` after each statement). -/
structure DB where
  documents : List DocRow
  events : List EventRow
  nextEventVersion : Nat
  nextDocRowid : Nat
  lastRowId : Nat

/-- The state right after `initDatabase` on an empty database. -/
def initialDB : DB := ⟨[], [], 1, 1, 0⟩

/-- `SELECT ... FROM documents WHERE id = ?` followed by `.first()`. -/
def findDoc (db : DB) (docId : String) : Option DocRow :=
  db.documents.find? (fun d => d.id == docId)

/-- `INSERT INTO events (id, doc_id, workspace_id, event_type, payload)`:
appends the event, assigns the AUTOINCREMENT version, and leaves that
version in the `last_insert_rowid()` register.  Returns the new state and
the assigned version (`meta.last_row_id` of this statement). -/
def insertEvent (db : DB) (eventId docId ws etype : String) (payload : JsonVal) :
    DB × Nat :=
  let v := db.nextEventVersion
  ({ db with
      events := ⟨v, eventId, docId, ws, etype, payload⟩ :: db.events,
      nextEventVersion := v + 1,
      lastRowId := v }, v)

/-- `INSERT INTO documents ...`: appends the row, consumes a rowid of the
`documents` table and leaves it in the `last_insert_rowid()` register. -/
def insertDocRow (db : DB) (row : DocRow) : DB :=
  { db with
      documents := db.documents ++ [row],
      lastRowId := db.nextDocRowid,
      nextDocRowid := db.nextDocRowid + 1 }

/-- `UPDATE documents SET ... WHERE id = ?`: rewrites the matching rows
(a no-op when no row matches — SQL reports zero affected rows, not an
error) and does not touch the `last_insert_rowid()` register. -/
def updateRows (db : DB) (docId : String) (f : DocRow → DocRow) : DB :=
  { db with documents := db.documents.map (fun d => if d.id == docId then f d else d) }

/-! ## Responses and publications -/

/-- The HTTP responses the document engine produces (bodies reduced to
the fields the claims are about). -/
inductive Resp where
  | created (id path : String) (version : Nat)
  | ok (version : Nat)
  | noContent
  | badRequest
  | forbidden
  | notFound
  | conflict
  | internalError

/-- A publication dispatched to Centrifugo after a commit.  The payload
is reduced to the fields the claims are about (`type`, the document id,
the path and `version`); the `data`/`doc` bodies are omitted. -/
structure Pub where
  channel : String
  ptype : String
  docId : String
  path : String
  version : Nat

/-- Responses the routing treats as success (2xx). -/
def Resp.isSuccess : Resp → Bool
  | .created _ _ _ => true
  | .ok _ => true
  | .noContent => true
  | _ => false

/-! ## The document-engine handlers

Each HTTP handler of `src/TelestackrealtimeDB/src/index.ts` becomes a
function from the request data and current `DB` to
`(response, new DB, publications)`.  Event ids are `crypto.randomUUID()`
strings; no claim depends on them, so the model takes them as inputs
(or passes `""` where the source generates them inline). -/

/-- `POST /documents/<collection>` — create with auto id ("1. CREATE").
The worker first inserts the `INSERT` event (`eventRes.meta.last_row_id`
is the event's version), then inserts the document row carrying that
version.  A primary-key collision on the document insert throws after
the event is already committed, producing a 500. -/
def createDoc (db : DB) (collection id eventId : String) (data : JsonVal)
    (userId : String) (parentPath : Option String) (ws : String) :
    Resp × DB × List Pub :=
  let docPath := match parentPath with
    | some pp => pp ++ "/" ++ collection ++ "/" ++ id
    | none => collection ++ "/" ++ id
  let collectionPath := match parentPath with
    | some pp => pp ++ "/" ++ collection
    | none => collection
  let (db1, version) := insertEvent db eventId id ws "INSERT" data
  if (findDoc db id).isSome then (.internalError, db1, [])
  else
    let db2 := insertDocRow db1 ⟨id, ws, collection, docPath, userId, data, version, false⟩
    (.created id docPath version, db2,
      [⟨"collection:" ++ chanName collectionPath, "CREATED", id, docPath, version⟩,
       ⟨"path:" ++ chanName docPath, "CREATED", id, docPath, version⟩])

/-- `PUT /documents/<collection>/<id>` — set/upsert ("4. SET (PUT)").
On an existing row (tombstoned or not): optional OCC precondition, then
a `SET` event, then an overwrite of `data`/`version` clearing the
tombstone.  On a missing row: upsert ignoring `expectedVersion`. -/
def setDoc (db : DB) (collection docId eventId : String) (data : JsonVal)
    (userId : String) (ws : String) (parentPath : Option String)
    (expectedVersion : Option Nat) : Resp × DB × List Pub :=
  match findDoc db docId with
  | some doc =>
    if expectedVersion.isSome ∧ expectedVersion ≠ some doc.version then
      (.conflict, db, [])
    else
      let (db1, version) := insertEvent db eventId docId ws "SET" data
      let collectionPath := collPathOf doc.path
      let db2 := updateRows db1 docId
        (fun d => { d with data := data, version := version, deleted := false })
      (.ok version, db2,
        [⟨"collection:" ++ chanName collectionPath, "UPDATED", docId, doc.path, version⟩,
         ⟨"path:" ++ chanName doc.path, "UPDATED", docId, doc.path, version⟩])
  | none =>
    let docPath := match parentPath with
      | some pp => pp ++ "/" ++ collection ++ "/" ++ docId
      | none => collection ++ "/" ++ docId
    let collectionPath := match parentPath with
      | some pp => pp ++ "/" ++ collection
      | none => collection
    let (db1, version) := insertEvent db eventId docId ws "INSERT" data
    let db2 := insertDocRow db1 ⟨docId, ws, collection, docPath, userId, data, version, false⟩
    (.created docId docPath version, db2,
      [⟨"collection:" ++ chanName collectionPath, "CREATED", docId, docPath, version⟩,
       ⟨"path:" ++ chanName docPath, "CREATED", docId, docPath, version⟩])

/-- `PATCH /documents/<collection>/<id>` — merge-patch ("5. UPDATE
(PATCH)").  404 on a missing row; optional OCC precondition; an `UPDATE`
event; then `data = json_patch(data, ?)`, new version, tombstone
cleared. -/
def updateDoc (db : DB) (docId eventId : String) (data : JsonVal)
    (ws : String) (expectedVersion : Option Nat) : Resp × DB × List Pub :=
  match findDoc db docId with
  | none => (.notFound, db, [])
  | some doc =>
    if expectedVersion.isSome ∧ expectedVersion ≠ some doc.version then
      (.conflict, db, [])
    else
      let (db1, version) := insertEvent db eventId docId ws "UPDATE" data
      let collectionPath := collPathOf doc.path
      let db2 := updateRows db1 docId
        (fun d => { d with data := mergePatch d.data data, version := version, deleted := false })
      (.ok version, db2,
        [⟨"collection:" ++ chanName collectionPath, "UPDATED", docId, doc.path, version⟩,
         ⟨"path:" ++ chanName doc.path, "UPDATED", docId, doc.path, version⟩])

/-- `DELETE /documents/<collection>/<id>` — soft delete ("6. DELETE").
When the row exists: optional OCC precondition, a `DELETE` event bound
to the row's own `workspace_id`, then `deleted_at` is set and the
version advanced, and two `DELETED` publications go out.  When the row
is missing the handler skips the whole block and still answers 204. -/
def deleteDoc (db : DB) (docId eventId : String) (expectedVersion : Option Nat) :
    Resp × DB × List Pub :=
  match findDoc db docId with
  | none => (.noContent, db, [])
  | some doc =>
    if expectedVersion.isSome ∧ expectedVersion ≠ some doc.version then
      (.conflict, db, [])
    else
      let (db1, version) := insertEvent db eventId docId doc.workspace_id "DELETE" (.obj [])
      let collectionPath := collPathOf doc.path
      let db2 := updateRows db1 docId
        (fun d => { d with deleted := true, version := version })
      (.noContent, db2,
        [⟨"collection:" ++ chanName collectionPath, "DELETED", docId, doc.path, version⟩,
         ⟨"path:" ++ chanName doc.path, "DELETED", docId, doc.path, version⟩])

/-! ## The batch handler (`POST /documents/batch`, "0. BATCH")

The worker loops over the operations once, against the **pre-batch**
database: it fetches each target's current version for the OCC check and
runs the per-operation security check, returning 409/403 (with nothing
written) on the first failure; in the same loop it accumulates the
prepared statements (one event insert and one document statement per
operation) and the two publication payloads per operation.  It then runs
all statements in a single atomic `env.DB.batch`, reads
`meta.last_row_id` of the **final** statement as `lastVersion`, patches
`version = lastVersion` into **every** accumulated publication payload,
dispatches them in batch order, and answers `{success, lastVersion}`.
Since the prepared statements and publications depend only on the
operations themselves (the pre-batch reads only gate the 409/403 exits),
this is modelled as a pre-check followed by a fold over the
operations. -/

inductive BatchOpType where
  | SET
  | UPDATE
  | DELETE

/-- One entry of the `operations` array.  `SET`/`UPDATE` operations
carry `data`; a `DELETE`'s absent `data` becomes the `{}` the worker
stores via `data || {}`, so `data` is modelled as always present. -/
structure BatchOp where
  btype : BatchOpType
  path : String
  data : JsonVal
  expectedVersion : Option Nat

/-- The security operation name used for a batch entry
(`type === 'DELETE' ? 'delete' : 'write'`). -/
def BatchOp.authOp (op : BatchOp) : String :=
  match op.btype with
  | .DELETE => "delete"
  | _ => "write"

/-- The first 409/403 produced by the per-operation loop, evaluated
against the pre-batch database, or `none` when every operation passes. -/
def batchCheck (db : DB) (authOk : String → String → Bool) :
    List BatchOp → Option Resp
  | [] => none
  | op :: rest =>
    let id := lastSeg op.path
    let occFail := match op.expectedVersion, findDoc db id with
      | some _, none => true
      | some ev, some d => d.version ≠ ev
      | none, _ => false
    if occFail then some .conflict
    else if ¬ authOk op.path op.authOp then some .forbidden
    else batchCheck db authOk rest

/-- The two statements prepared for one operation: the event insert
(`eventType` is `SET → 'INSERT'`, `UPDATE → 'UPDATE'`, else `'DELETE'`),
then the document statement.  The `SET` insert binds
`version = (SELECT last_insert_rowid())`, which SQLite evaluates while
building the candidate row — i.e. to the event version just assigned —
before the `documents` insert itself claims a rowid; the `ON CONFLICT`
branch takes `excluded.version`, the same value.  The `UPDATE`/`DELETE`
statements read `last_insert_rowid()` directly (still the event
version, as an `UPDATE` inserts nothing) and silently affect zero rows
when the target id does not exist. -/
def applyBatchOp (w userId : String) (db : DB) (op : BatchOp) : DB :=
  let id := lastSeg op.path
  let col := sndLastSeg op.path
  let etype := match op.btype with
    | .SET => "INSERT"
    | .UPDATE => "UPDATE"
    | .DELETE => "DELETE"
  let db1 := (insertEvent db "" id w etype op.data).1
  match op.btype with
  | .SET =>
    let ver := db1.lastRowId
    if (findDoc db1 id).isSome then
      updateRows db1 id (fun d => { d with data := op.data, version := ver, deleted := false })
    else
      insertDocRow db1 ⟨id, w, col, op.path, userId, op.data, ver, false⟩
  | .UPDATE =>
    updateRows db1 id (fun d => { d with data := op.data, version := db1.lastRowId })
  | .DELETE =>
    updateRows db1 id (fun d => { d with deleted := true, version := db1.lastRowId })

/-- The two publication payloads accumulated for one operation
(collection channel, then document channel), with the `version` field
that is patched in after the commit. -/
def batchPubs (op : BatchOp) (version : Nat) : List Pub :=
  let id := lastSeg op.path
  let collectionPath := collPathOf op.path
  let ptype := match op.btype with
    | .DELETE => "DELETED"
    | .SET => "CREATED"
    | .UPDATE => "UPDATED"
  [⟨"collection:" ++ chanName collectionPath, ptype, id, op.path, version⟩,
   ⟨"path:" ++ chanName op.path, ptype, id, op.path, version⟩]

/-- The whole batch endpoint. -/
def batchCommit (db : DB) (w userId : String) (authOk : String → String → Bool)
    (ops : List BatchOp) : Resp × DB × List Pub :=
  match batchCheck db authOk ops with
  | some r => (r, db, [])
  | none =>
    let db' := ops.foldl (applyBatchOp w userId) db
    let lastVersion := db'.lastRowId
    (.ok lastVersion, db', ops.flatMap (fun op => batchPubs op lastVersion))

/-! ## Sequences of requests

A `ServerOp` is one mutating HTTP request; `step` dispatches it to the
handler above.  The security checks of the non-batch routes run before
the handlers and deny with nothing written, so for the state-machine
claims they are modelled as passing (`authOk` constantly true for the
batch); a denied request leaves the database unchanged and is not a
successful operation in any case. -/

inductive ServerOp where
  | create (collection id eventId : String) (data : JsonVal) (userId : String)
      (parentPath : Option String) (ws : String)
  | put (collection docId eventId : String) (data : JsonVal) (userId : String)
      (ws : String) (parentPath : Option String) (expectedVersion : Option Nat)
  | patch (docId eventId : String) (data : JsonVal) (ws : String)
      (expectedVersion : Option Nat)
  | del (docId eventId : String) (expectedVersion : Option Nat)
  | batch (ws userId : String) (ops : List BatchOp)

/-- Dispatch one request. -/
def step (db : DB) : ServerOp → Resp × DB × List Pub
  | .create collection id eventId data userId parentPath ws =>
    createDoc db collection id eventId data userId parentPath ws
  | .put collection docId eventId data userId ws parentPath expectedVersion =>
    setDoc db collection docId eventId data userId ws parentPath expectedVersion
  | .patch docId eventId data ws expectedVersion =>
    updateDoc db docId eventId data ws expectedVersion
  | .del docId eventId expectedVersion =>
    deleteDoc db docId eventId expectedVersion
  | .batch ws userId ops =>
    batchCommit db ws userId (fun _ _ => true) ops

/-- The workspace a request writes its events under (`del` uses the
target row's own `workspace_id`, so it is unconstrained here). -/
def ServerOp.inWorkspace : ServerOp → String → Prop
  | .create _ _ _ _ _ _ ws, w => ws = w
  | .put _ _ _ _ _ ws _ _, w => ws = w
  | .patch _ _ _ ws _, w => ws = w
  | .del _ _ _, _ => True
  | .batch ws _ _, w => ws = w

/-- Run a sequence of requests, requiring every one of them to succeed
(2xx); `none` as soon as one fails. -/
def runSuccess : DB → List ServerOp → Option DB
  | db, [] => some db
  | db, op :: rest =>
    let (r, db', _) := step db op
    if r.isSuccess then runSuccess db' rest else none

/-- The version of the latest event appended for `docId` (the `events`
list is newest-first). -/
def latestEventVersionFor (db : DB) (docId : String) : Option Nat :=
  (db.events.find? (fun e => e.doc_id == docId)).map (·.version)

/-- The version of the latest event appended for `docId` within
workspace `ws`. -/
def latestEventVersionForIn (db : DB) (docId ws : String) : Option Nat :=
  (db.events.find? (fun e => e.doc_id == docId && e.workspace_id == ws)).map (·.version)

/-! ## The version invariant (claim C2)

`InvW w db`: every document row's `version` is the version of the latest
event appended for it, and everything lives in workspace `w`. -/

/-- The invariant: stored versions track the event log, and all rows and
events belong to workspace `w`. -/
def InvW (w : String) (db : DB) : Prop :=
  (∀ d ∈ db.documents, latestEventVersionFor db d.id = some d.version) ∧
  (∀ d ∈ db.documents, d.workspace_id = w) ∧
  (∀ e ∈ db.events, e.workspace_id = w)

theorem invW_initial (w : String) : InvW w initialDB := by
  refine ⟨?_, ?_, ?_⟩ <;> simp [initialDB]

theorem latestEventVersionFor_insertEvent (db : DB) (eid did ws et : String)
    (pl : JsonVal) (x : String) :
    latestEventVersionFor (insertEvent db eid did ws et pl).1 x =
      if did = x then some db.nextEventVersion else latestEventVersionFor db x := by
  by_cases h : did = x <;>
    simp [latestEventVersionFor, insertEvent, List.find?_cons, h]

theorem findDoc_insertEvent (db : DB) (eid did ws et : String) (pl : JsonVal)
    (x : String) : findDoc (insertEvent db eid did ws et pl).1 x = findDoc db x := rfl

theorem lastRowId_insertEvent (db : DB) (eid did ws et : String) (pl : JsonVal) :
    (insertEvent db eid did ws et pl).1.lastRowId = db.nextEventVersion := rfl

/-- Appending an event for `did` and then rewriting the rows with id
`did` to carry the freshly assigned version preserves the invariant. -/
theorem invW_event_update (w : String) (db : DB) (eid did et : String)
    (pl : JsonVal) (f : DocRow → DocRow)
    (h : InvW w db)
    (hfid : ∀ d, (f d).id = d.id)
    (hfws : ∀ d, (f d).workspace_id = d.workspace_id)
    (hfv : ∀ d, (f d).version = db.nextEventVersion) :
    InvW w (updateRows (insertEvent db eid did w et pl).1 did f) := by
  obtain ⟨h1, h2, h3⟩ := h
  refine ⟨?_, ?_, ?_⟩
  · intro d' hd'
    simp only [updateRows, List.mem_map] at hd'
    obtain ⟨d, hd, hval⟩ := hd'
    have hlat : latestEventVersionFor (updateRows (insertEvent db eid did w et pl).1 did f) d'.id =
        latestEventVersionFor (insertEvent db eid did w et pl).1 d'.id := rfl
    rw [hlat, latestEventVersionFor_insertEvent]
    by_cases hid : d.id = did
    · have hval' : d' = f d := by
        simpa [hid] using hval.symm
      rw [hval', hfid, hid, hfv]
      simp
    · have hval' : d' = d := by
        have : (d.id == did) = false := beq_false_of_ne hid
        simpa [this] using hval.symm
      rw [hval', if_neg (fun hc => hid hc.symm)]
      exact h1 d hd
  · intro d' hd'
    simp only [updateRows, List.mem_map] at hd'
    obtain ⟨d, hd, hval⟩ := hd'
    by_cases hid : d.id = did
    · have hval' : d' = f d := by simpa [hid] using hval.symm
      rw [hval', hfws]; exact h2 d hd
    · have hval' : d' = d := by
        have : (d.id == did) = false := beq_false_of_ne hid
        simpa [this] using hval.symm
      rw [hval']; exact h2 d hd
  · intro e he
    simp only [updateRows, insertEvent, List.mem_cons] at he
    rcases he with he | he
    · simp [he]
    · exact h3 e he

/-- Appending an event for a fresh id `did` and then inserting a row for
`did` carrying the freshly assigned version preserves the invariant. -/
theorem invW_event_insertRow (w : String) (db : DB) (eid did et : String)
    (pl : JsonVal) (row : DocRow)
    (h : InvW w db)
    (hfresh : findDoc db did = none)
    (hrid : row.id = did)
    (hrws : row.workspace_id = w)
    (hrv : row.version = db.nextEventVersion) :
    InvW w (insertDocRow (insertEvent db eid did w et pl).1 row) := by
  obtain ⟨h1, h2, h3⟩ := h
  have hne : ∀ d ∈ db.documents, d.id ≠ did := by
    intro d hd hc
    have := List.find?_eq_none.mp hfresh d hd
    simp [hc] at this
  refine ⟨?_, ?_, ?_⟩
  · intro d' hd'
    simp only [insertDocRow, List.mem_append, List.mem_singleton] at hd'
    have hlat : ∀ x, latestEventVersionFor (insertDocRow (insertEvent db eid did w et pl).1 row) x =
        latestEventVersionFor (insertEvent db eid did w et pl).1 x := fun _ => rfl
    rcases hd' with hd' | hd'
    · rw [hlat, latestEventVersionFor_insertEvent,
        if_neg (fun hc => hne d' hd' hc.symm)]
      exact h1 d' hd'
    · subst hd'
      rw [hlat, latestEventVersionFor_insertEvent, hrid, if_pos rfl, hrv]
  · intro d' hd'
    simp only [insertDocRow, List.mem_append, List.mem_singleton] at hd'
    rcases hd' with hd' | hd'
    · exact h2 d' hd'
    · subst hd'; exact hrws
  · intro e he
    simp only [insertDocRow, insertEvent, List.mem_cons] at he
    rcases he with he | he
    · simp [he]
    · exact h3 e he

theorem invW_applyBatchOp (w uid : String) (db : DB) (op : BatchOp)
    (h : InvW w db) : InvW w (applyBatchOp w uid db op) := by
  obtain ⟨bt, path, data, ev⟩ := op
  cases bt with
  | SET =>
    simp only [applyBatchOp]
    by_cases hfd : (findDoc (insertEvent db "" (lastSeg path) w "INSERT" data).1
        (lastSeg path)).isSome
    · rw [if_pos hfd]
      exact invW_event_update w db "" (lastSeg path) "INSERT" data _ h
        (fun d => rfl) (fun d => rfl) (fun d => rfl)
    · rw [if_neg hfd]
      refine invW_event_insertRow w db "" (lastSeg path) "INSERT" data _ h ?_ rfl rfl rfl
      rw [findDoc_insertEvent] at hfd
      exact Option.not_isSome_iff_eq_none.mp hfd
  | UPDATE =>
    exact invW_event_update w db "" (lastSeg path) "UPDATE" data _ h
      (fun d => rfl) (fun d => rfl) (fun d => rfl)
  | DELETE =>
    exact invW_event_update w db "" (lastSeg path) "DELETE" data _ h
      (fun d => rfl) (fun d => rfl) (fun d => rfl)

theorem invW_batchFold (w uid : String) (ops : List BatchOp) (db : DB)
    (h : InvW w db) : InvW w (ops.foldl (applyBatchOp w uid) db) := by
  induction ops generalizing db with
  | nil => exact h
  | cons op rest ih => exact ih _ (invW_applyBatchOp w uid db op h)

theorem invW_step (w : String) (db : DB) (op : ServerOp)
    (h : InvW w db) (hop : op.inWorkspace w) :
    (step db op).1.isSuccess = true → InvW w (step db op).2.1 := by
  intro hs
  cases op with
  | create collection id eventId data userId parentPath ws =>
    have hws : ws = w := hop
    subst hws
    by_cases hfd : (findDoc db id).isSome
    · simp [step, createDoc, hfd, Resp.isSuccess] at hs
    · simp only [step, createDoc, if_neg hfd]
      refine invW_event_insertRow _ db _ _ _ _ _ h ?_ rfl rfl rfl
      exact Option.not_isSome_iff_eq_none.mp hfd
  | put collection docId eventId data userId ws parentPath expectedVersion =>
    have hws : ws = w := hop
    subst hws
    cases hfd : findDoc db docId with
    | some doc =>
      by_cases hocc : expectedVersion.isSome ∧ expectedVersion ≠ some doc.version
      · simp [step, setDoc, hfd, hocc, Resp.isSuccess] at hs
      · simp only [step, setDoc, hfd, if_neg hocc]
        exact invW_event_update _ db _ _ _ _ _ h
          (fun d => rfl) (fun d => rfl) (fun d => rfl)
    | none =>
      simp only [step, setDoc, hfd]
      exact invW_event_insertRow _ db _ _ _ _ _ h hfd rfl rfl rfl
  | patch docId eventId data ws expectedVersion =>
    have hws : ws = w := hop
    subst hws
    cases hfd : findDoc db docId with
    | some doc =>
      by_cases hocc : expectedVersion.isSome ∧ expectedVersion ≠ some doc.version
      · simp [step, updateDoc, hfd, hocc, Resp.isSuccess] at hs
      · simp only [step, updateDoc, hfd, if_neg hocc]
        exact invW_event_update _ db _ _ _ _ _ h
          (fun d => rfl) (fun d => rfl) (fun d => rfl)
    | none =>
      simp [step, updateDoc, hfd, Resp.isSuccess] at hs
  | del docId eventId expectedVersion =>
    cases hfd : findDoc db docId with
    | some doc =>
      by_cases hocc : expectedVersion.isSome ∧ expectedVersion ≠ some doc.version
      · simp [step, deleteDoc, hfd, hocc, Resp.isSuccess] at hs
      · have hdws : doc.workspace_id = w :=
          h.2.1 doc (List.mem_of_find?_eq_some hfd)
        simp only [step, deleteDoc, hfd, if_neg hocc]
        rw [hdws]
        exact invW_event_update _ db _ _ _ _ _ h
          (fun d => rfl) (fun d => rfl) (fun d => rfl)
    | none =>
      simpa [step, deleteDoc, hfd] using h
  | batch ws userId ops =>
    have hws : ws = w := hop
    subst hws
    cases hchk : batchCheck db (fun _ _ => true) ops with
    | some r => simpa [step, batchCommit, hchk] using h
    | none =>
      simp only [step, batchCommit, hchk]
      exact invW_batchFold _ _ ops db h

/-- Running a sequence of successful requests, all in workspace `w`,
preserves the invariant. -/
theorem invW_runSuccess (w : String) (ops : List ServerOp) (db db' : DB)
    (h : InvW w db) (hw : ∀ op ∈ ops, op.inWorkspace w)
    (hrun : runSuccess db ops = some db') : InvW w db' := by
  induction ops generalizing db with
  | nil =>
    simp only [runSuccess, Option.some.injEq] at hrun
    exact hrun ▸ h
  | cons op rest ih =>
    simp only [runSuccess] at hrun
    by_cases hs : (step db op).1.isSuccess
    · rw [if_pos hs] at hrun
      exact ih ((step db op)).2.1
        (invW_step w db op h (hw op (List.mem_cons_self op rest)) hs)
        (fun o ho => hw o (List.mem_cons_of_mem op ho)) hrun
    · rw [if_neg hs] at hrun
      exact absurd hrun (by simp)

theorem find?_docid_ws (evs : List EventRow) (w i ws : String)
    (h3 : ∀ e ∈ evs, e.workspace_id = w) (hws : ws = w) :
    evs.find? (fun e => e.doc_id == i && e.workspace_id == ws) =
      evs.find? (fun e => e.doc_id == i) := by
  induction evs with
  | nil => rfl
  | cons e rest ih =>
    have hbe : (e.workspace_id == ws) = true :=
      beq_iff_eq.mpr (by rw [h3 e (List.mem_cons_self e rest), hws])
    have ih' := ih (fun e he => h3 e (List.mem_cons_of_mem _ he))
    cases hdi : (e.doc_id == i) <;>
      simp [List.find?_cons, hbe, hdi, ih']

theorem latestEventVersionForIn_eq (db : DB) (w i ws : String)
    (h3 : ∀ e ∈ db.events, e.workspace_id = w) (hws : ws = w) :
    latestEventVersionForIn db i ws = latestEventVersionFor db i := by
  unfold latestEventVersionForIn latestEventVersionFor
  rw [find?_docid_ws db.events w i ws h3 hws]

/-- C2.  For every document at rest after any sequence of successful
create, set, update, delete, or batch operations (all scoped to one
workspace, as every operation on a document must be), the document's
stored `version` field equals the version — the auto-assigned `events`
row id — of the latest event appended for that document in its
workspace. -/
theorem C2_doc_version_matches_latest_event (w : String) (ops : List ServerOp)
    (db' : DB) (hw : ∀ op ∈ ops, op.inWorkspace w)
    (hrun : runSuccess initialDB ops = some db') :
    ∀ d ∈ db'.documents,
      latestEventVersionForIn db' d.id d.workspace_id = some d.version := by
  have hinv : InvW w db' :=
    invW_runSuccess w ops initialDB db' (invW_initial w) hw hrun
  intro d hd
  rw [latestEventVersionForIn_eq db' w d.id d.workspace_id hinv.2.2 (hinv.2.1 d hd)]
  exact hinv.1 d hd

/-- A concrete successful run for the C2 witness: one auto-id create in
the default workspace. -/
def opsC2W : List ServerOp :=
  [.create "items" "a" "e1" (.obj [("n", .num 1)]) "u1" none "default"]

/-- The database state after `opsC2W`. -/
def dbC2W : DB := (runSuccess initialDB opsC2W).getD initialDB

/-- Witness for C2: after the concrete run `opsC2W`, the stored version
of document `a` (namely 1) is the version of its latest event. -/
theorem C2_witness : latestEventVersionForIn dbC2W "a" "default" = some 1 := by
  have hrun : runSuccess initialDB opsC2W = some dbC2W := rfl
  have hw : ∀ op ∈ opsC2W, op.inWorkspace "default" := by
    intro op hop
    simp only [opsC2W, List.mem_singleton] at hop
    subst hop
    exact rfl
  have hd : (⟨"a", "default", "items", "items/a", "u1",
      .obj [("n", .num 1)], 1, false⟩ : DocRow) ∈ dbC2W.documents := by
    have hdocs : dbC2W.documents = [⟨"a", "default", "items", "items/a", "u1",
        .obj [("n", .num 1)], 1, false⟩] := rfl
    rw [hdocs]
    exact List.mem_singleton.mpr rfl
  exact C2_doc_version_matches_latest_event "default" opsC2W dbC2W hw hrun _ hd

/-! ## Claim C1: batch atomicity

The failing input: a batch `[SET items/a, SET items/b, UPDATE items/c]`
with no `expectedVersion` anywhere and `items/c` absent.  The prepared
`UPDATE documents ... WHERE id = 'c'` affects zero rows, which SQL does
not treat as an error, so the D1 batch commits: the worker answers
`{success}`, both SETs are applied, and three events are appended —
including an `UPDATE` event for the non-existent `c`. -/

/-- The failing batch of claim C1. -/
def opsC1 : List BatchOp :=
  [⟨.SET, "items/a", .obj [("v", .num 1)], none⟩,
   ⟨.SET, "items/b", .obj [("v", .num 2)], none⟩,
   ⟨.UPDATE, "items/c", .obj [("x", .num 3)], none⟩]

/-- C1.  Evaluating the batch handler at the failing input: against the
claim (and spec scenario S3), the batch **succeeds** (200 with the final
version), the two earlier SETs **are** applied (`a` and `b` exist with
the new data), no document `c` exists, and three events were appended —
the batch is not all-or-nothing. -/
theorem C1_batch_update_missing_target_partial_effect :
    (batchCommit initialDB "default" "u1" (fun _ _ => true) opsC1).1 = .ok 3 ∧
    ((batchCommit initialDB "default" "u1" (fun _ _ => true) opsC1).2.1.documents.map
      (fun d => (d.id, d.data, d.version))) =
      [("a", .obj [("v", .num 1)], 1), ("b", .obj [("v", .num 2)], 2)] ∧
    findDoc (batchCommit initialDB "default" "u1" (fun _ _ => true) opsC1).2.1 "c" = none ∧
    (batchCommit initialDB "default" "u1" (fun _ _ => true) opsC1).2.1.events.length = 3 :=
  ⟨rfl, rfl, rfl, rfl⟩

/-! ## Claim C3: optimistic concurrency control on PUT / PATCH / DELETE -/

/-- C3.  On an existing document: a supplied `expectedVersion` different
from the current version makes PUT, PATCH and DELETE answer 409 with the
database unchanged and no publication; with `expectedVersion` omitted,
each of the three writes proceeds regardless of the current version —
it succeeds and appends exactly one event. -/
theorem C3_expected_version_occ (db : DB) (collection docId eid1 eid2 eid3 : String)
    (data patchData : JsonVal) (userId ws : String) (pp : Option String)
    (doc : DocRow) (hfd : findDoc db docId = some doc) :
    (∀ v, v ≠ doc.version →
      setDoc db collection docId eid1 data userId ws pp (some v) = (.conflict, db, []) ∧
      updateDoc db docId eid2 patchData ws (some v) = (.conflict, db, []) ∧
      deleteDoc db docId eid3 (some v) = (.conflict, db, [])) ∧
    ((setDoc db collection docId eid1 data userId ws pp none).1 =
        .ok db.nextEventVersion ∧
      (setDoc db collection docId eid1 data userId ws pp none).2.1.events.length =
        db.events.length + 1) ∧
    ((updateDoc db docId eid2 patchData ws none).1 = .ok db.nextEventVersion ∧
      (updateDoc db docId eid2 patchData ws none).2.1.events.length =
        db.events.length + 1) ∧
    ((deleteDoc db docId eid3 none).1 = .noContent ∧
      (deleteDoc db docId eid3 none).2.1.events.length = db.events.length + 1) := by
  refine ⟨?_, ?_, ?_, ?_⟩
  · intro v hv
    have hocc : (some v : Option Nat).isSome ∧ (some v : Option Nat) ≠ some doc.version := by
      simpa using hv
    refine ⟨?_, ?_, ?_⟩ <;> simp [setDoc, updateDoc, deleteDoc, hfd, hocc]
  · constructor <;> simp [setDoc, hfd, insertEvent, updateRows]
  · constructor <;> simp [updateDoc, hfd, insertEvent, updateRows]
  · constructor <;> simp [deleteDoc, hfd, insertEvent, updateRows]

/-- A one-document database (version 5) for concrete witnesses. -/
def dbC3W : DB :=
  ⟨[⟨"x", "default", "items", "items/x", "u1", .obj [("n", .num 0)], 5, false⟩],
   [⟨5, "e5", "x", "default", "SET", .obj [("n", .num 0)]⟩], 6, 2, 5⟩

/-- Witness for C3: on `dbC3W` (document `x` at version 5), a PUT with
`expectedVersion = 4` answers 409 changing nothing, and a DELETE without
`expectedVersion` answers 204. -/
theorem C3_witness :
    setDoc dbC3W "items" "x" "ew" (.obj []) "u1" "default" none (some 4) =
      (.conflict, dbC3W, []) ∧
    (deleteDoc dbC3W "x" "ew2" none).1 = .noContent := by
  have h := C3_expected_version_occ dbC3W "items" "x" "ew" "ep" "ew2"
    (.obj []) (.obj []) "u1" "default" none
    ⟨"x", "default", "items", "items/x", "u1", .obj [("n", .num 0)], 5, false⟩ rfl
  exact ⟨(h.1 4 (by decide)).1, h.2.2.2.1⟩

/-! ## Claim C10: DELETE on a missing id -/

/-- C10.  A DELETE for a document id absent from the `documents` table
answers 204 with the database unchanged (no event appended, no row
mutated) and dispatches no publication. -/
theorem C10_delete_missing_noop (db : DB) (docId eid : String) (ev : Option Nat)
    (h : findDoc db docId = none) :
    deleteDoc db docId eid ev = (.noContent, db, []) := by
  simp [deleteDoc, h]

/-- Witness for C10 on the empty database. -/
theorem C10_witness :
    deleteDoc initialDB "ghost" "e" none = (.noContent, initialDB, []) :=
  C10_delete_missing_noop initialDB "ghost" "e" none rfl

/-! ## Claim C4: merge-patch semantics of UPDATE

The PATCH endpoint stores `json_patch(data, ?)` — RFC 7386 merge patch.
The batch `UPDATE` statement, however, is `UPDATE documents SET data = ?`:
a full overwrite.  Lemmas below characterise `mergePatch` at the key
level and locate the stored data after each code path. -/

theorem lookupKey_eraseKey (tf : List (String × JsonVal)) (k k' : String) :
    lookupKey (eraseKey tf k') k = if k = k' then none else lookupKey tf k := by
  induction tf with
  | nil => simp [eraseKey, lookupKey]
  | cons p rest ih =>
    obtain ⟨a, b⟩ := p
    by_cases hak : a = k'
    · subst hak
      rw [show eraseKey ((a, b) :: rest) a = eraseKey rest a by simp [eraseKey], ih]
      by_cases hkk : k = a
      · simp [hkk]
      · simp [hkk, lookupKey]
    · rw [show eraseKey ((a, b) :: rest) k' = (a, b) :: eraseKey rest k' by
        simp [eraseKey, hak]]
      by_cases hka : k = a
      · have hkk : k ≠ k' := fun hc => hak (by rw [← hka, hc])
        simp [lookupKey, hka, hkk, hak]
      · simp [lookupKey, hka, ih]

theorem lookupKey_mapReplaceKey (tf : List (String × JsonVal)) (k k' : String)
    (v : JsonVal) :
    lookupKey (mapReplaceKey tf k' v) k =
      if k = k' then (if hasKey tf k' then some v else none)
      else lookupKey tf k := by
  induction tf with
  | nil => by_cases hkk : k = k' <;> simp [mapReplaceKey, lookupKey, hasKey, hkk]
  | cons p rest ih =>
    obtain ⟨a, b⟩ := p
    by_cases hak : a = k'
    · subst hak
      by_cases hkk : k = a
      · subst hkk
        simp [mapReplaceKey, lookupKey, hasKey]
      · simp [mapReplaceKey, lookupKey, hasKey, hkk, ih]
    · by_cases hka : k = a
      · subst hka
        have hkk : k ≠ k' := hak
        simp [mapReplaceKey, lookupKey, hasKey, hak, hkk]
      · simp [mapReplaceKey, lookupKey, hasKey, hak, hka, ih]

theorem lookupKey_append (l₁ l₂ : List (String × JsonVal)) (k : String) :
    lookupKey (l₁ ++ l₂) k = (lookupKey l₁ k).orElse (fun _ => lookupKey l₂ k) := by
  induction l₁ with
  | nil => simp [lookupKey]
  | cons p rest ih =>
    obtain ⟨a, b⟩ := p
    by_cases hka : k = a <;> simp [lookupKey, hka, ih]

theorem lookupKey_eq_none_of_not_hasKey (tf : List (String × JsonVal)) (k : String)
    (h : hasKey tf k = false) : lookupKey tf k = none := by
  induction tf with
  | nil => rfl
  | cons p rest ih =>
    obtain ⟨a, b⟩ := p
    by_cases hak : a = k
    · simp [hasKey, hak] at h
    · have hka : k ≠ a := fun hc => hak hc.symm
      simp only [hasKey, if_neg hak] at h
      simp [lookupKey, hka, ih h]

theorem lookupKey_setKey (tf : List (String × JsonVal)) (k k' : String) (v : JsonVal) :
    lookupKey (setKey tf k' v) k = if k = k' then some v else lookupKey tf k := by
  unfold setKey
  cases hany : hasKey tf k'
  · rw [if_neg (by simp), lookupKey_append]
    by_cases hkk : k = k'
    · subst hkk
      simp [lookupKey_eq_none_of_not_hasKey tf k hany, lookupKey]
    · cases h : lookupKey tf k <;> simp [h, lookupKey, hkk]
  · rw [if_pos rfl, lookupKey_mapReplaceKey, hany]
    simp

theorem lookupKey_eq_none_of_not_mem (tf : List (String × JsonVal)) (k : String)
    (h : k ∉ tf.map Prod.fst) : lookupKey tf k = none := by
  induction tf with
  | nil => rfl
  | cons p rest ih =>
    obtain ⟨a, b⟩ := p
    simp only [List.map_cons, List.mem_cons, not_or] at h
    simp [lookupKey, h.1, ih h.2]

/-- The value merge patch leaves at key `k`: a `null` patch value erases
the key, any other patch value is recursively merged over the target's
value, and keys the patch does not mention keep the target's value. -/
def mergeLookupSpec (tf pf : List (String × JsonVal)) (k : String) : Option JsonVal :=
  match lookupKey pf k with
  | some v =>
    if v.isNull then none
    else some (mergePatch ((lookupKey tf k).getD .null) v)
  | none => lookupKey tf k

theorem lookupKey_applyPatchFields (pf : List (String × JsonVal)) :
    ∀ (tf : List (String × JsonVal)) (k : String), (pf.map Prod.fst).Nodup →
      lookupKey (applyPatchFields tf pf) k = mergeLookupSpec tf pf k := by
  induction pf with
  | nil =>
    intro tf k _
    simp [applyPatchFields, mergeLookupSpec, lookupKey]
  | cons p rest ih =>
    intro tf k hnd
    obtain ⟨k', v⟩ := p
    simp only [List.map_cons, List.nodup_cons] at hnd
    obtain ⟨hk'notin, hndrest⟩ := hnd
    cases hv : v.isNull
    · rw [show applyPatchFields tf ((k', v) :: rest) =
          applyPatchFields (setKey tf k' (mergePatch ((lookupKey tf k').getD .null) v)) rest by
        simp [applyPatchFields, hv]]
      rw [ih _ k hndrest]
      by_cases hk : k = k'
      · subst hk
        have hrest : lookupKey rest k = none :=
          lookupKey_eq_none_of_not_mem rest k hk'notin

        simp [mergeLookupSpec, lookupKey, hrest, lookupKey_setKey, hv]
      · unfold mergeLookupSpec
        rw [lookupKey_setKey, if_neg hk]
        simp [lookupKey, hk]
    · rw [show applyPatchFields tf ((k', v) :: rest) =
          applyPatchFields (eraseKey tf k') rest by simp [applyPatchFields, hv]]
      rw [ih _ k hndrest]
      by_cases hk : k = k'
      · subst hk
        have hrest : lookupKey rest k = none :=
          lookupKey_eq_none_of_not_mem rest k hk'notin
        simp [mergeLookupSpec, lookupKey, hrest, lookupKey_eraseKey, hv]
      · unfold mergeLookupSpec
        rw [lookupKey_eraseKey, if_neg hk]
        simp [lookupKey, hk]

/-- Locating a row after an `UPDATE documents ... WHERE id = ?` whose
rewrite keeps row ids. -/
theorem findDoc_updateRows (db : DB) (i x : String) (f : DocRow → DocRow)
    (hid : ∀ d, (f d).id = d.id) :
    findDoc (updateRows db i f) x =
      (findDoc db x).map (fun d => if d.id == i then f d else d) := by
  unfold findDoc updateRows
  rw [List.find?_map]
  have hpred : ((fun d => d.id == x) ∘ (fun d => if d.id == i then f d else d)) =
      (fun d : DocRow => d.id == x) := by
    funext d
    by_cases h : d.id = i
    · simp [h, hid]
    · simp [h]
  rw [hpred]

/-! ## Claim C4: merge-patch vs. overwrite -/

/-- A database holding document `c` with data `{a: 1, b: 2}`. -/
def dbC4 : DB :=
  ⟨[⟨"c", "default", "items", "items/c", "u1",
      .obj [("a", .num 1), ("b", .num 2)], 1, false⟩],
   [⟨1, "e1", "c", "default", "INSERT", .obj [("a", .num 1), ("b", .num 2)]⟩],
   2, 2, 1⟩

/-- C4 counterexample.  A batch `UPDATE` of `items/c` with patch
`{b: 3}` over stored data `{a: 1, b: 2}` leaves `{b: 3}` — a full
overwrite — whereas JSON merge patch gives `{a: 1, b: 3}`; the two
differ, so the UPDATE operation inside a batch does not apply merge
patch. -/
theorem C4_counterexample_batch_update_overwrites :
    ((batchCommit dbC4 "default" "u1" (fun _ _ => true)
        [⟨.UPDATE, "items/c", .obj [("b", .num 3)], none⟩]).2.1.documents.map
      (fun d => d.data)) = [.obj [("b", .num 3)]] ∧
    mergePatch (.obj [("a", .num 1), ("b", .num 2)]) (.obj [("b", .num 3)]) =
      .obj [("a", .num 1), ("b", .num 3)] ∧
    (JsonVal.obj [("b", .num 3)]) ≠ (JsonVal.obj [("a", .num 1), ("b", .num 3)]) := by
  refine ⟨rfl, ?_, ?_⟩
  · simp [mergePatch, applyPatchFields, eraseKey, setKey, hasKey, mapReplaceKey,
      lookupKey, JsonVal.objFields, JsonVal.isNull]
  · simp

/-- C4 (amended).  The PATCH endpoint applies RFC 7386 merge patch: the
stored data after `updateDoc` is `mergePatch` of the old data and the
patch, whose key-level behaviour is: a `null` patch value erases the
key, any other patch value is recursively merged over the target value,
and unmentioned keys are preserved.  The UPDATE operation inside a
batch, however, **overwrites** the stored data with the patch payload
verbatim. -/
theorem C4_patch_merges_batch_update_overwrites
    (db : DB) (docId eid : String) (p : JsonVal) (ws userId : String)
    (doc : DocRow) (hfd : findDoc db docId = some doc) :
    ((findDoc (updateDoc db docId eid p ws none).2.1 docId).map (fun d => d.data)) =
      some (mergePatch doc.data p) ∧
    (∀ path, lastSeg path = docId →
      ((findDoc (batchCommit db ws userId (fun _ _ => true)
          [⟨.UPDATE, path, p, none⟩]).2.1 docId).map (fun d => d.data)) = some p) ∧
    (∀ tf pf k, (pf.map Prod.fst).Nodup →
      lookupKey (mergePatch (.obj tf) (.obj pf)).objFields k = mergeLookupSpec tf pf k) := by
  have hfd' : db.documents.find? (fun d => d.id == docId) = some doc := hfd
  have hpid : doc.id = docId := by simpa using List.find?_some hfd'
  refine ⟨?_, ?_, ?_⟩
  · simp only [updateDoc, hfd]
    rw [if_neg (by simp)]
    have hrw := findDoc_updateRows (insertEvent db eid docId ws "UPDATE" p).1 docId docId
      (fun d =>
        { d with
          data := mergePatch d.data p
          version := (insertEvent db eid docId ws "UPDATE" p).2
          deleted := false })
      (fun d => rfl)
    rw [hrw,
      show findDoc (insertEvent db eid docId ws "UPDATE" p).1 docId = findDoc db docId from rfl,
      hfd]
    simp [hpid]
  · intro path hpath
    show ((findDoc (applyBatchOp ws userId db ⟨.UPDATE, path, p, none⟩) docId).map
      (fun d => d.data)) = some p
    show ((findDoc (updateRows (insertEvent db "" (lastSeg path) ws "UPDATE" p).1 (lastSeg path)
        (fun d =>
          { d with
            data := p
            version := (insertEvent db "" (lastSeg path) ws "UPDATE" p).1.lastRowId })) docId).map
      (fun d => d.data)) = some p
    rw [hpath]
    have hrw := findDoc_updateRows (insertEvent db "" docId ws "UPDATE" p).1 docId docId
      (fun d =>
        { d with
          data := p
          version := (insertEvent db "" docId ws "UPDATE" p).1.lastRowId })
      (fun d => rfl)
    rw [hrw,
      show findDoc (insertEvent db "" docId ws "UPDATE" p).1 docId = findDoc db docId from rfl,
      hfd]
    simp [hpid]
  · intro tf pf k hnd
    rw [show mergePatch (.obj tf) (.obj pf) = .obj (applyPatchFields tf pf) by
      simp [mergePatch, JsonVal.objFields]]
    exact lookupKey_applyPatchFields pf tf k hnd

/-- Witness for C4 (amended): a concrete PATCH of `{b: 3}` over
`{a: 1, b: 2}` stores `{a: 1, b: 3}`. -/
theorem C4_witness :
    ((findDoc (updateDoc dbC4 "c" "ew" (.obj [("b", .num 3)]) "default" none).2.1 "c").map
      (fun d => d.data)) = some (.obj [("a", .num 1), ("b", .num 3)]) := by
  have h := (C4_patch_merges_batch_update_overwrites dbC4 "c" "ew"
    (.obj [("b", .num 3)]) "default" "u1"
    ⟨"c", "default", "items", "items/c", "u1",
      .obj [("a", .num 1), ("b", .num 2)], 1, false⟩ rfl).1
  rw [h]
  simp [mergePatch, applyPatchFields, eraseKey, setKey, hasKey, mapReplaceKey,
    lookupKey, JsonVal.objFields, JsonVal.isNull]

/-! ## Claim C5: publication versions

The single-document handlers put the event version they just obtained
into their publication payloads.  The batch handler instead patches
`version = lastVersion` — the `meta.last_row_id` of the **final**
statement of the batch — into every accumulated publication. -/

/-- A database holding documents `a` (version 1) and `b` (version 2). -/
def dbC5 : DB :=
  ⟨[⟨"a", "default", "items", "items/a", "u1", .obj [("v", .num 1)], 1, false⟩,
    ⟨"b", "default", "items", "items/b", "u1", .obj [("v", .num 2)], 2, false⟩],
   [⟨2, "e2", "b", "default", "INSERT", .obj [("v", .num 2)]⟩,
    ⟨1, "e1", "a", "default", "INSERT", .obj [("v", .num 1)]⟩],
   3, 3, 2⟩

/-- A batch updating `a` then `b`. -/
def opsC5 : List BatchOp :=
  [⟨.UPDATE, "items/a", .obj [("x", .num 1)], none⟩,
   ⟨.UPDATE, "items/b", .obj [("y", .num 2)], none⟩]

/-- C5 counterexample.  In the two-operation batch `opsC5` on `dbC5`,
the event appended for the first operation (the update of `a`) has
version 3, but all four dispatched publications — including the two for
that operation — carry version 4, the version of the batch's final
operation.  So a batch publication does not carry the version of the
event appended for its own operation. -/
theorem C5_counterexample_batch_pubs_carry_final_version :
    ((batchCommit dbC5 "default" "u1" (fun _ _ => true) opsC5).2.2.map
      (fun pb => pb.version)) = [4, 4, 4, 4] ∧
    latestEventVersionFor (batchCommit dbC5 "default" "u1" (fun _ _ => true) opsC5).2.1 "a" =
      some 3 ∧
    (4 : Nat) ≠ 3 :=
  ⟨rfl, rfl, by decide⟩

/-- C5 (amended).  The single-document endpoints (PUT, PATCH, DELETE on
an existing document, POST create on a fresh id) publish, on both
channels, exactly the version of the event appended for that operation
(which is then the latest event of the target document).  Inside a
batch, however, every publication carries one and the same value — the
batch's final `last_row_id` — not the version of the event appended for
its own operation. -/
theorem C5_pub_versions :
    (∀ (db : DB) collection docId eid (data : JsonVal) userId ws pp (doc : DocRow),
      findDoc db docId = some doc →
      ((setDoc db collection docId eid data userId ws pp none).2.2.map
          (fun pb => pb.version)) = [db.nextEventVersion, db.nextEventVersion] ∧
      latestEventVersionFor (setDoc db collection docId eid data userId ws pp none).2.1
          docId = some db.nextEventVersion) ∧
    (∀ (db : DB) docId eid (data : JsonVal) ws (doc : DocRow),
      findDoc db docId = some doc →
      ((updateDoc db docId eid data ws none).2.2.map (fun pb => pb.version)) =
          [db.nextEventVersion, db.nextEventVersion] ∧
      latestEventVersionFor (updateDoc db docId eid data ws none).2.1 docId =
          some db.nextEventVersion) ∧
    (∀ (db : DB) docId eid (doc : DocRow),
      findDoc db docId = some doc →
      ((deleteDoc db docId eid none).2.2.map (fun pb => pb.version)) =
          [db.nextEventVersion, db.nextEventVersion] ∧
      latestEventVersionFor (deleteDoc db docId eid none).2.1 docId =
          some db.nextEventVersion) ∧
    (∀ (db : DB) collection id eid (data : JsonVal) userId pp ws,
      findDoc db id = none →
      ((createDoc db collection id eid data userId pp ws).2.2.map
          (fun pb => pb.version)) = [db.nextEventVersion, db.nextEventVersion] ∧
      latestEventVersionFor (createDoc db collection id eid data userId pp ws).2.1 id =
          some db.nextEventVersion) ∧
    (∀ (db : DB) ws userId authOk ops,
      batchCheck db authOk ops = none →
      ∀ pb ∈ (batchCommit db ws userId authOk ops).2.2,
        pb.version = (batchCommit db ws userId authOk ops).2.1.lastRowId) := by
  refine ⟨?_, ?_, ?_, ?_, ?_⟩
  · intro db collection docId eid data userId ws pp doc hfd
    constructor
    · simp [setDoc, hfd, insertEvent]
    · simp [setDoc, hfd, insertEvent, updateRows, latestEventVersionFor]
  · intro db docId eid data ws doc hfd
    constructor
    · simp [updateDoc, hfd, insertEvent]
    · simp [updateDoc, hfd, insertEvent, updateRows, latestEventVersionFor]
  · intro db docId eid doc hfd
    constructor
    · simp [deleteDoc, hfd, insertEvent]
    · simp [deleteDoc, hfd, insertEvent, updateRows, latestEventVersionFor]
  · intro db collection id eid data userId pp ws hfd
    have hnotsome : (findDoc db id).isSome = false := by simp [hfd]
    constructor
    · simp [createDoc, hnotsome, insertEvent]
    · simp [createDoc, hnotsome, insertEvent, insertDocRow, latestEventVersionFor]
  · intro db ws userId authOk ops hchk pb hmem
    simp only [batchCommit, hchk, List.mem_flatMap] at hmem ⊢
    obtain ⟨op, _, hpb⟩ := hmem
    simp only [batchPubs, List.mem_cons, List.mem_singleton] at hpb
    rcases hpb with hpb | hpb | hpb
    · rw [hpb]
    · rw [hpb]
    · cases hpb

/-- Witness for C5 (amended): a concrete PUT on `dbC5` publishes
version 3 (= the appended event's version) on both channels. -/
theorem C5_witness :
    ((setDoc dbC5 "items" "a" "ew" (.obj []) "u1" "default" none none).2.2.map
      (fun pb => pb.version)) = [3, 3] := by
  have h := (C5_pub_versions.1 dbC5 "items" "a" "ew" (.obj []) "u1" "default" none
    ⟨"a", "default", "items", "items/a", "u1", .obj [("v", .num 1)], 1, false⟩ rfl).1
  simpa using h

/-! ## The rules engine (`class SecurityRules`)

`matchPath` is transcribed statement by statement (note the
fall-through: a pattern ending in `/**` whose base is not a prefix of
the path still reaches the later checks).  `evaluateExpression`
special-cases the literals `'true'`, `'false'` and `'auth !== null'`
and otherwise substitutes the context into the expression string and
hands it to the host language's `eval`; that substitution + `eval` step
is modelled by an abstract `oracle` returning `some b` for a successful
boolean evaluation and `none` when evaluation throws (including a
`ReferenceError` for an unresolved variable) — the `catch` turns `none`
into `false`. -/

/-- `s.startsWith(pre)`. -/
def strStartsWith (s pre : String) : Bool := pre.toList.isPrefixOf s.toList

/-- `s.endsWith(suf)`. -/
def strEndsWith (s suf : String) : Bool := suf.toList.isSuffixOf s.toList

/-- `s.slice(0, -n)`. -/
def strDropRight (s : String) (n : Nat) : String :=
  ⟨s.toList.take (s.toList.length - n)⟩

/-- `s.substring(n)`. -/
def strDropLeft (s : String) (n : Nat) : String := ⟨s.toList.drop n⟩

/-- `s.length`. -/
def strLen (s : String) : Nat := s.toList.length

/-- Index of the first occurrence of `needle` in the haystack. -/
def indexOfSub (needle : List Char) : List Char → Option Nat
  | [] => if needle.isPrefixOf ([] : List Char) then some 0 else none
  | c :: t =>
    if needle.isPrefixOf (c :: t) then some 0
    else (indexOfSub needle t).map (· + 1)

/-- `s.includes(sub)`. -/
def strIncludes (s sub : String) : Bool := (indexOfSub sub.toList s.toList).isSome

/-- `s.split(sub)[0]`: the prefix before the first occurrence of `sub`
(`s` itself when `sub` does not occur). -/
def prefixBeforeSub (s sub : String) : String :=
  match indexOfSub sub.toList s.toList with
  | some i => ⟨s.toList.take i⟩
  | none => s

/-- A configured rule: a path pattern and the per-operation allow
expressions. -/
structure Rule where
  path : String
  allowRead : Option String
  allowWrite : Option String
  allowDelete : Option String

inductive RuleOp where
  | read
  | write
  | delete

def Rule.allowFor (r : Rule) : RuleOp → Option String
  | .read => r.allowRead
  | .write => r.allowWrite
  | .delete => r.allowDelete

/-- JavaScript `a || b` on allow entries: a missing entry and the empty
string are both falsy. -/
def orFalsy (a b : Option String) : Option String :=
  match a with
  | some s => if s = "" then b else some s
  | none => b

/-- `rule.allow[operation] || rule.allow['write'] || 'false'`. -/
def effectiveExpr (r : Rule) (op : RuleOp) : String :=
  (orFalsy (r.allowFor op) (orFalsy r.allowWrite none)).getD "false"

/-- The auth context extracted from the JWT (`{ userId: payload.sub }`). -/
structure AuthCtx where
  userId : String

/-- The expression context: the path variables bound by the pattern
match, spread together with `auth`. -/
structure ExprCtx where
  params : List (String × String)
  auth : Option AuthCtx

/-- The element-wise segment loop of `matchPath` (run after the length
check): `{name}` segments capture, literal segments must be equal. -/
def matchSegs : List String → List String → Option (List (String × String))
  | [], [] => some []
  | pp :: pps, q :: qs =>
    if strStartsWith pp "\x7b" ∧ strEndsWith pp "\x7d" then
      (matchSegs pps qs).map (fun ps => (strDropRight (strDropLeft pp 1) 1, q) :: ps)
    else if pp = q then matchSegs pps qs
    else none
  | _, _ => none

/-- `SecurityRules.matchPath`. -/
def matchPath (pattern path : String) : Option (List (String × String)) :=
  if strEndsWith pattern "/**" ∧ strStartsWith path (strDropRight pattern 3) then
    some []
  else if strIncludes pattern "\x7bpath=**\x7d" ∧
      strStartsWith path (prefixBeforeSub pattern "\x7bpath=**\x7d") then
    some [("path", strDropLeft path (strLen (prefixBeforeSub pattern "\x7bpath=**\x7d")))]
  else if (splitSlash pattern).length ≠ (splitSlash path).length then none
  else matchSegs (splitSlash pattern) (splitSlash path)

/-- `SecurityRules.evaluateExpression`, with the substitution + `eval`
step abstracted into `oracle` (`none` = the evaluation threw, e.g. on an
unresolved variable; the `catch` block returns `false`). -/
def evaluateExpression (oracle : String → ExprCtx → Option Bool) (expr : String)
    (ctx : ExprCtx) : Bool :=
  if expr = "true" then true
  else if expr = "false" then false
  else if expr = "auth !== null" then ctx.auth.isSome
  else (oracle expr ctx).getD false

/-- `SecurityRules.evaluate`: walk the configured rules in order; the
first whose pattern matches decides; no match means deny. -/
def evalRules (oracle : String → ExprCtx → Option Bool) :
    List Rule → String → RuleOp → Option AuthCtx → Bool
  | [], _, _, _ => false
  | r :: rest, path, op, auth =>
    match matchPath r.path path with
    | some params => evaluateExpression oracle (effectiveExpr r op) ⟨params, auth⟩
    | none => evalRules oracle rest path op auth

/-- The first rule whose pattern matches, with its captured params. -/
def firstMatch : List Rule → String → Option (Rule × List (String × String))
  | [], _ => none
  | r :: rest, path =>
    match matchPath r.path path with
    | some params => some (r, params)
    | none => firstMatch rest path

/-- The three expression literals `evaluateExpression` special-cases. -/
def isSpecialExpr (e : String) : Bool :=
  e == "true" || e == "false" || e == "auth !== null"

/-- The worker's embedded `rulesConfig`, in declaration order. -/
def srcRules : List Rule :=
  [⟨"sync", some "auth !== null", none, none⟩,
   ⟨"storage/users/\x7buserId\x7d/**",
     some "auth !== null && auth.sub === userId",
     some "auth !== null && auth.sub === userId",
     some "auth !== null && auth.sub === userId"⟩,
   ⟨"documents/\x7bpath=**\x7d",
     some "auth.userId === userId", some "auth.userId === userId", none⟩,
   ⟨"\x7bcollection\x7d", some "true", some "auth !== null", none⟩,
   ⟨"\x7bcollection\x7d/\x7bid\x7d", some "true", some "auth !== null", none⟩,
   ⟨"\x7bcollection\x7d/\x7bid\x7d/**", some "true", some "auth !== null", none⟩]

/-- C7.  For every rule list, path, operation and auth context, the
rules engine returns the decision of the first rule in the ordered list
whose pattern matches the path; if no pattern matches the result is
deny, and if the matched rule's (non-special-cased) expression makes
the evaluator throw or reference an unresolved variable (oracle =
`none`), the result is deny. -/
theorem C7_first_match_decides_failures_deny
    (oracle : String → ExprCtx → Option Bool) (rules : List Rule) (path : String)
    (op : RuleOp) (auth : Option AuthCtx) :
    (evalRules oracle rules path op auth =
      match firstMatch rules path with
      | none => false
      | some (r, params) =>
        evaluateExpression oracle (effectiveExpr r op) ⟨params, auth⟩) ∧
    (∀ r params, firstMatch rules path = some (r, params) →
      isSpecialExpr (effectiveExpr r op) = false →
      oracle (effectiveExpr r op) ⟨params, auth⟩ = none →
      evalRules oracle rules path op auth = false) := by
  have hchar : evalRules oracle rules path op auth =
      match firstMatch rules path with
      | none => false
      | some (r, params) =>
        evaluateExpression oracle (effectiveExpr r op) ⟨params, auth⟩ := by
    induction rules with
    | nil => rfl
    | cons r rest ih =>
      cases hm : matchPath r.path path with
      | some params => simp [evalRules, firstMatch, hm]
      | none => simpa [evalRules, firstMatch, hm] using ih
  refine ⟨hchar, ?_⟩
  intro r params hfm hspec horacle
  rw [hchar, hfm]
  simp only [isSpecialExpr, Bool.or_eq_false_iff, beq_eq_false_iff_ne, ne_eq] at hspec
  obtain ⟨⟨h1, h2⟩, h3⟩ := hspec
  simp [evaluateExpression, h1, h2, h3, horacle]

/-- Witness for C7: under the worker's own `rulesConfig`, a write to
`items/x` with a signed-in user is decided by the fifth rule
(`\x7bcollection\x7d/\x7bid\x7d`, `write: auth !== null`) and allowed,
even with an oracle that always throws. -/
theorem C7_witness :
    evalRules (fun _ _ => none) srcRules "items/x" .write (some ⟨"u1"⟩) = true := by
  have h := (C7_first_match_decides_failures_deny (fun _ _ => none) srcRules
    "items/x" .write (some ⟨"u1"⟩)).1
  rw [h]
  decide

/-! ## Claim C9: client path-parsing round trip

`TelestackClient.doc` splits the path on `/`, requires an even segment
count, and builds a `DocumentReference` from the joined init and the
last segment; `DocumentReference.path` glues them back with `/`. -/

/-- The reference returned by `client.doc` (`collectionPath` and `id`). -/
structure DocumentReference where
  collectionPath : String
  id : String

/-- The `path` getter: `` `${collectionPath}/${id}` ``. -/
def DocumentReference.path (r : DocumentReference) : String :=
  r.collectionPath ++ "/" ++ r.id

/-- `TelestackClient.doc` (the `throw` on an odd segment count becomes
`none`). -/
def clientDoc (p : String) : Option DocumentReference :=
  let parts := splitSlash p
  if parts.length % 2 ≠ 0 then none
  else some ⟨joinSegs parts.dropLast, (parts.getLast?).getD ""⟩

theorem splitChars_ne_nil (l : List Char) : splitChars l ≠ [] := by
  induction l with
  | nil => simp [splitChars]
  | cons c cs ih =>
    simp only [splitChars]
    by_cases hc : c = '/'
    · simp [hc]
    · rw [if_neg hc]
      cases h : splitChars cs with
      | nil => simp
      | cons g gs => simp

theorem joinChars_splitChars (l : List Char) : joinChars (splitChars l) = l := by
  induction l with
  | nil => rfl
  | cons c cs ih =>
    by_cases hc : c = '/'
    · rw [show splitChars (c :: cs) = [] :: splitChars cs by simp [splitChars, hc]]
      cases h : splitChars cs with
      | nil => exact absurd h (splitChars_ne_nil cs)
      | cons g gs =>
        rw [h] at ih
        rw [show joinChars ([] :: g :: gs) = '/' :: joinChars (g :: gs) from rfl, ih, hc]
    · rw [show splitChars (c :: cs) = match splitChars cs with
          | g :: gs => (c :: g) :: gs
          | [] => [[c]] by simp [splitChars, hc]]
      cases h : splitChars cs with
      | nil => exact absurd h (splitChars_ne_nil cs)
      | cons g gs =>
        rw [h] at ih
        cases gs with
        | nil => simpa [joinChars] using congrArg (c :: ·) ih
        | cons g2 gs2 =>
          rw [show joinChars ((c :: g) :: g2 :: gs2) =
              (c :: g) ++ '/' :: joinChars (g2 :: gs2) from rfl]
          rw [show joinChars (g :: g2 :: gs2) = g ++ '/' :: joinChars (g2 :: gs2) from rfl] at ih
          simpa using congrArg (c :: ·) ih

theorem joinSegs_splitSlash (s : String) : joinSegs (splitSlash s) = s := by
  unfold joinSegs splitSlash
  rw [List.map_map]
  have hcomp : (String.toList ∘ fun cs : List Char => (⟨cs⟩ : String)) = id := by
    funext cs
    rfl
  rw [hcomp, List.map_id, joinChars_splitChars]
  cases s
  rfl

theorem joinChars_concat (gs : List (List Char)) (g : List Char) (h : gs ≠ []) :
    joinChars (gs ++ [g]) = joinChars gs ++ '/' :: g := by
  induction gs with
  | nil => exact absurd rfl h
  | cons g1 rest ih =>
    cases rest with
    | nil => rfl
    | cons g2 rest2 =>
      have ih' := ih (by simp)
      rw [show (g1 :: g2 :: rest2) ++ [g] = g1 :: ((g2 :: rest2) ++ [g]) from rfl]
      rw [show joinChars (g1 :: (g2 :: rest2 ++ [g])) =
          g1 ++ '/' :: joinChars (g2 :: rest2 ++ [g]) from rfl]
      rw [show (g2 :: rest2) ++ [g] = g2 :: (rest2 ++ [g]) from rfl] at ih' ⊢
      rw [ih']
      rw [show joinChars (g1 :: g2 :: rest2) = g1 ++ '/' :: joinChars (g2 :: rest2) from rfl]
      simp

theorem joinSegs_concat (qs : List String) (q : String) (h : qs ≠ []) :
    joinSegs (qs ++ [q]) = joinSegs qs ++ "/" ++ q := by
  unfold joinSegs
  have hmap : (qs ++ [q]).map String.toList = qs.map String.toList ++ [q.toList] := by
    simp
  rw [hmap, joinChars_concat _ _ (by simpa using h)]
  apply congrArg String.mk
  show joinChars (qs.map String.toList) ++ '/' :: q.toList =
    (joinChars (qs.map String.toList) ++ ['/']) ++ q.toList
  simp

/-- C9.  For every valid document path `p` (an even number of
`/`-separated segments), `client.doc(client.doc(p).path).path = p`. -/
theorem C9_doc_path_roundtrip (p : String)
    (heven : (splitSlash p).length % 2 = 0) :
    ((clientDoc p).bind (fun r => clientDoc r.path)).map DocumentReference.path =
      some p := by
  have hne : splitSlash p ≠ [] := by
    unfold splitSlash
    simp [splitChars_ne_nil]
  have hlen2 : 2 ≤ (splitSlash p).length := by
    rcases hn : (splitSlash p).length with _ | n
    · exact absurd (List.length_eq_zero.mp hn) hne
    · rcases n with _ | m
      · rw [hn] at heven
        simp at heven
      · omega
  have hinitne : (splitSlash p).dropLast ≠ [] := by
    have : (splitSlash p).dropLast.length = (splitSlash p).length - 1 := by
      simp [List.length_dropLast]
    intro hc
    rw [hc] at this
    simp at this
    omega
  have hdecomp : (splitSlash p).dropLast ++ [((splitSlash p).getLast?).getD ""] =
      splitSlash p := by
    rw [List.getLast?_eq_getLast _ hne, Option.getD_some]
    exact List.dropLast_append_getLast hne
  have hpath : (DocumentReference.path
      ⟨joinSegs (splitSlash p).dropLast, ((splitSlash p).getLast?).getD ""⟩) = p := by
    unfold DocumentReference.path
    calc joinSegs (splitSlash p).dropLast ++ "/" ++ ((splitSlash p).getLast?).getD ""
        = joinSegs ((splitSlash p).dropLast ++ [((splitSlash p).getLast?).getD ""]) :=
          (joinSegs_concat _ _ hinitne).symm
      _ = joinSegs (splitSlash p) := by rw [hdecomp]
      _ = p := joinSegs_splitSlash p
  have hdoc : clientDoc p =
      some ⟨joinSegs (splitSlash p).dropLast, ((splitSlash p).getLast?).getD ""⟩ := by
    unfold clientDoc
    rw [if_neg (by simp [heven])]
  rw [hdoc]
  show (clientDoc (DocumentReference.path
      ⟨joinSegs (splitSlash p).dropLast, ((splitSlash p).getLast?).getD ""⟩)).map
    DocumentReference.path = some p
  rw [hpath, hdoc]
  show some (DocumentReference.path
    ⟨joinSegs (splitSlash p).dropLast, ((splitSlash p).getLast?).getD ""⟩) = some p
  rw [hpath]

/-- Witness for C9 at the concrete path `users/u1`. -/
theorem C9_witness :
    ((clientDoc "users/u1").bind (fun r => clientDoc r.path)).map
      DocumentReference.path = some "users/u1" :=
  C9_doc_path_roundtrip "users/u1" (by decide)

/-! ## Claim C8: snapshot metadata (`asyncGetSnapshot`)

`DocumentReference.asyncGetSnapshot` tries the server; on success it
builds a snapshot with the default metadata
`{fromCache: false, hasPendingWrites: false}` (caching the result), on a
404 a non-existing snapshot with the same default metadata, and when the
fetch throws it falls back to the cache with the hard-coded metadata
`{fromCache: true, hasPendingWrites: true}` (re-throwing if the path is
not cached).  The client's outbound `queue` table is part of the
client's state but is never consulted by this code path, so it is an
unused argument here. -/

/-- A `documents` cache entry (`{data, version}`; the version is `-1`
for an optimistic, not-yet-synced write). -/
structure CacheEntry where
  data : JsonVal
  version : Int

/-- An entry of the outbound `queue` table. -/
structure QueueEntry where
  qtype : String
  qpath : String
  payload : JsonVal

/-- `DocumentSnapshot` with its metadata. -/
structure DocumentSnapshot where
  id : String
  path : String
  data : Option JsonVal
  version : Int
  fromCache : Bool
  hasPendingWrites : Bool

/-- Outcome of the `authFetch` on the document URL. -/
inductive ServerRead where
  | ok (data : JsonVal) (version : Int)
  | notFound
  | networkError

/-- `DocumentReference.asyncGetSnapshot` (`none` = the exception is
re-thrown). -/
def asyncGetSnapshot (id path : String) (server : ServerRead)
    (cache : Option CacheEntry) (queue : List QueueEntry) : Option DocumentSnapshot :=
  match server with
  | .ok data version => some ⟨id, path, some data, version, false, false⟩
  | .notFound => some ⟨id, path, none, 0, false, false⟩
  | .networkError =>
    match cache with
    | some c => some ⟨id, path, some c.data, c.version, true, true⟩
    | none => none

/-- C8 counterexample.  A cache-fallback read of a document whose cached
version is 5 — an authoritative server version, not the sentinel `-1` —
with an empty queue still reports `has_pending_writes = true`, where the
claim requires `false`. -/
theorem C8_counterexample_fallback_always_pending :
    ((asyncGetSnapshot "x" "items/x" .networkError (some ⟨.num 1, 5⟩) []).map
      (fun s => s.hasPendingWrites)) = some true ∧ (5 : Int) ≠ -1 :=
  ⟨rfl, by decide⟩

/-- C8 (amended).  `asyncGetSnapshot` couples `has_pending_writes` to
the cache fallback, not to the queue or the `-1` sentinel: every
snapshot it returns has `has_pending_writes = from_cache`, and
`from_cache` is `true` exactly on the network-failure path with a cached
entry — regardless of the cached version and of the queue contents. -/
theorem C8_pending_iff_fallback (id path : String) (server : ServerRead)
    (cache : Option CacheEntry) (queue : List QueueEntry) :
    ∀ s, asyncGetSnapshot id path server cache queue = some s →
      s.hasPendingWrites = s.fromCache ∧
      (s.fromCache = true ↔ server = .networkError ∧ cache.isSome = true) := by
  intro s hs
  cases server with
  | ok data version =>
    simp only [asyncGetSnapshot, Option.some.injEq] at hs
    subst hs
    simp
  | notFound =>
    simp only [asyncGetSnapshot, Option.some.injEq] at hs
    subst hs
    simp
  | networkError =>
    cases cache with
    | some c =>
      simp only [asyncGetSnapshot, Option.some.injEq] at hs
      subst hs
      simp
    | none => simp [asyncGetSnapshot] at hs

/-- Witness for C8 (amended): on the concrete fallback snapshot of the
counterexample, `has_pending_writes` equals `from_cache` and
`from_cache` is true. -/
theorem C8_witness :
    (⟨"x", "items/x", some (.num 1), 5, true, true⟩ :
      DocumentSnapshot).hasPendingWrites = true := by
  have h := C8_pending_iff_fallback "x" "items/x" .networkError
    (some ⟨.num 1, 5⟩) [] ⟨"x", "items/x", some (.num 1), 5, true, true⟩ rfl
  rw [h.1]

/-! ## Claim C6: the client's local matcher vs. the server's compiled query

The client (`Query.matches`) reads `doc[filter.field]` — a top-level JS
property access — and switches on the operator; note there is **no**
`case` for `LIKE`, so a `LIKE` filter never rejects locally.  The server
(query handler) compiles each filter into a clause over
`json_extract(data, '$.<field>')`, silently dropping filters whose field
fails the `[a-zA-Z0-9.]+` whitelist or whose `in` value is not an array,
and evaluates the conjunction with SQL's three-valued logic (a NULL
clause excludes the row).

Documents are modelled as flat association lists (top-level fields); a
dot-free field name then means the same lookup on both sides.  JS
values and SQL values:

* JS `===` is structural on primitives and reference equality on
  arrays/objects — two distinct array/object values are never `===`.
* JS relational operators are modelled on number/number and
  string/string operand pairs; other coercing combinations (string vs.
  number, booleans, `undefined`, arrays) are modelled as `false` and
  excluded from the equivalence hypotheses below.
* `json_extract` yields SQL NULL for a missing field or JSON `null`,
  INTEGER for numbers and booleans (1/0), TEXT for strings, and
  serialized-JSON TEXT for arrays/objects (whose content comparisons are
  not modelled and are excluded by the hypotheses; mixed storage classes
  compare by class order, INTEGER below TEXT).
* `json_each` on an array yields one row per element (same value
  conversion), on a scalar one row with that scalar, and no rows on
  NULL in this model.
-/

inductive QOp where
  | eq
  | ne
  | lt
  | le
  | gt
  | ge
  | inOp
  | arrayContains
  | like

/-- One `(field, op, value)` filter. -/
structure QFilter where
  field : String
  op : QOp
  value : JsonVal

/-- JavaScript `===` on the modelled value domain. -/
def jsEqVal : JsonVal → JsonVal → Bool
  | .null, .null => true
  | .bool a, .bool b => a == b
  | .num a, .num b => a == b
  | .str a, .str b => a == b
  | _, _ => false

/-- `docValue === value` where `docValue` may be `undefined`. -/
def jsStrictEq : Option JsonVal → JsonVal → Bool
  | some v, w => jsEqVal v w
  | none, _ => false

/-- JS `<` on the modelled operand pairs. -/
def jsLt : Option JsonVal → JsonVal → Bool
  | some (.num a), .num b => decide (a < b)
  | some (.str a), .str b => decide (a < b)
  | _, _ => false

/-- JS `>`. -/
def jsGt : Option JsonVal → JsonVal → Bool
  | some (.num a), .num b => decide (b < a)
  | some (.str a), .str b => decide (b < a)
  | _, _ => false

/-- JS `<=`. -/
def jsLe : Option JsonVal → JsonVal → Bool
  | some (.num a), .num b => decide (a ≤ b)
  | some (.str a), .str b => decide (a ≤ b)
  | _, _ => false

/-- JS `>=`. -/
def jsGe : Option JsonVal → JsonVal → Bool
  | some (.num a), .num b => decide (b ≤ a)
  | some (.str a), .str b => decide (b ≤ a)
  | _, _ => false

/-- One iteration of the `Query.matches` loop: `false` here makes the
whole matcher return `false`.  The `LIKE` operator has no `case` in the
source's `switch`, so it falls through and never rejects. -/
def clientFilterPass (doc : List (String × JsonVal)) (f : QFilter) : Bool :=
  let docValue := lookupKey doc f.field
  match f.op with
  | .eq => jsStrictEq docValue f.value
  | .ne => !(jsStrictEq docValue f.value)
  | .gt => jsGt docValue f.value
  | .lt => jsLt docValue f.value
  | .ge => jsGe docValue f.value
  | .le => jsLe docValue f.value
  | .inOp =>
    match f.value, docValue with
    | .arr vs, some dv => vs.any (fun v => jsEqVal v dv)
    | _, _ => false
  | .arrayContains =>
    match docValue with
    | some (.arr xs) => xs.any (fun x => jsEqVal x f.value)
    | _ => false
  | .like => true

/-- `Query.matches`. -/
def clientMatches (doc : List (String × JsonVal)) (filters : List QFilter) : Bool :=
  filters.all (clientFilterPass doc)

/-- SQL values as produced by `json_extract` and parameter binding. -/
inductive SqlVal where
  | null
  | int (i : Int)
  | text (s : String)
  | jsonArr (xs : List JsonVal)
  | jsonObj (fs : List (String × JsonVal))

/-- `json_extract(data, '$.<field>')` on a flat document with a dot-free
field name. -/
def sqlExtract (doc : List (String × JsonVal)) (field : String) : SqlVal :=
  match lookupKey doc field with
  | none => .null
  | some .null => .null
  | some (.num n) => .int n
  | some (.str s) => .text s
  | some (.bool b) => .int (if b then 1 else 0)
  | some (.arr xs) => .jsonArr xs
  | some (.obj fs) => .jsonObj fs

/-- D1 parameter binding of a JS value (numbers, strings, booleans; and
the same conversion for `json_each` element values). -/
def bindVal : JsonVal → SqlVal
  | .null => .null
  | .num n => .int n
  | .str s => .text s
  | .bool b => .int (if b then 1 else 0)
  | .arr xs => .jsonArr xs
  | .obj fs => .jsonObj fs

/-- SQL `=` under three-valued logic.  Values of distinct storage
classes are unequal; comparisons of serialized-JSON text are not
modelled (excluded by the equivalence hypotheses). -/
def sqlEq : SqlVal → SqlVal → Option Bool
  | .null, _ => none
  | _, .null => none
  | .int a, .int b => some (a == b)
  | .text a, .text b => some (a == b)
  | _, _ => some false

/-- SQL `!=`. -/
def sqlNe (x y : SqlVal) : Option Bool := (sqlEq x y).map (fun b => !b)

/-- SQLite storage-class order for mixed-class comparisons. -/
def sqlClassRank : SqlVal → Nat
  | .null => 0
  | .int _ => 1
  | .text _ => 2
  | .jsonArr _ => 2
  | .jsonObj _ => 2

/-- SQL `<` under three-valued logic (INTEGER sorts below TEXT). -/
def sqlLt : SqlVal → SqlVal → Option Bool
  | .null, _ => none
  | _, .null => none
  | .int a, .int b => some (decide (a < b))
  | .text a, .text b => some (decide (a < b))
  | x, y => some (decide (sqlClassRank x < sqlClassRank y))

/-- SQL `>`. -/
def sqlGt (x y : SqlVal) : Option Bool := sqlLt y x

/-- SQL `<=`. -/
def sqlLe (x y : SqlVal) : Option Bool := (sqlLt y x).map (fun b => !b)

/-- SQL `>=`. -/
def sqlGe (x y : SqlVal) : Option Bool := (sqlLt x y).map (fun b => !b)

/-- SQL `x IN (v₁, …, vₙ)` under three-valued logic. -/
def sqlIn (x : SqlVal) : List SqlVal → Option Bool
  | [] => some false
  | v :: vs =>
    match sqlEq x v with
    | some true => some true
    | some false => sqlIn x vs
    | none =>
      match sqlIn x vs with
      | some true => some true
      | _ => none

/-- SQL `LIKE` on character lists: `%` matches any run, `_` one
character, letters case-insensitively (ASCII). -/
def likeChars : List Char → List Char → Bool
  | [], s => s.isEmpty
  | '%' :: ps, s =>
    likeChars ps s ||
      (match s with
       | [] => false
       | _ :: s' => likeChars ('%' :: ps) s')
  | '_' :: ps, s =>
    (match s with
     | [] => false
     | _ :: s' => likeChars ps s')
  | c :: ps, s =>
    (match s with
     | [] => false
     | d :: s' => (c.toLower == d.toLower) && likeChars ps s')
termination_by ps s => (ps.length, s.length)

/-- SQL `x LIKE pattern` (NULL-propagating; non-text operands would be
CAST to TEXT, which is not modelled and excluded by the hypotheses). -/
def sqlLike : SqlVal → SqlVal → Option Bool
  | .null, _ => none
  | _, .null => none
  | .text s, .text p => some (likeChars p.toList s.toList)
  | _, _ => some false

/-- `EXISTS (SELECT 1 FROM json_each(json_extract(data, '$.<field>'))
WHERE json_each.value = ?)`. -/
def sqlArrayContains (doc : List (String × JsonVal)) (field : String)
    (param : SqlVal) : Option Bool :=
  match lookupKey doc field with
  | some (.arr xs) => some (xs.any (fun x => (sqlEq (bindVal x) param).getD false))
  | some .null => some false
  | none => some false
  | some v => some ((sqlEq (bindVal v) param).getD false)

/-- The `[a-zA-Z0-9.]+` whitelist of the query handler. -/
def validField (s : String) : Bool :=
  !s.toList.isEmpty && s.toList.all (fun c => c.isAlphanum || c == '.')

/-- What one filter contributes to the compiled query, evaluated on one
document. -/
inductive ClauseRes where
  | skip
  | err
  | val (b : Option Bool)

/-- Compile one filter against a document: invalid field names and
non-array `in` values are silently skipped (`continue` / no matching
branch); an empty `in` list yields `IN ()`, a SQL syntax error that
fails the whole query (500). -/
def compileClause (doc : List (String × JsonVal)) (f : QFilter) : ClauseRes :=
  if !(validField f.field) then .skip
  else
    let fv := sqlExtract doc f.field
    match f.op with
    | .eq => .val (sqlEq fv (bindVal f.value))
    | .ne => .val (sqlNe fv (bindVal f.value))
    | .lt => .val (sqlLt fv (bindVal f.value))
    | .le => .val (sqlLe fv (bindVal f.value))
    | .gt => .val (sqlGt fv (bindVal f.value))
    | .ge => .val (sqlGe fv (bindVal f.value))
    | .inOp =>
      match f.value with
      | .arr [] => .err
      | .arr vs => .val (sqlIn fv (vs.map bindVal))
      | _ => .skip
    | .arrayContains => .val (sqlArrayContains doc f.field (bindVal f.value))
    | .like => .val (sqlLike fv (bindVal f.value))

/-- Whether the compiled query returns the document: `some true` =
returned, `some false` = filtered out (including by a NULL clause),
`none` = the compiled SQL is invalid and the request 500s. -/
def serverAccepts (doc : List (String × JsonVal)) : List QFilter → Option Bool
  | [] => some true
  | f :: rest =>
    match compileClause doc f with
    | .skip => serverAccepts doc rest
    | .err => none
    | .val ob =>
      match serverAccepts doc rest with
      | none => none
      | some b => some ((ob.getD false) && b)

/-- C6 counterexample.  On the empty document `{}` with the single
filter `(a, !=, 1)`, the client matcher accepts (`undefined !== 1` is
`true`, so the loop never rejects) while the compiled query excludes
the document (`json_extract` yields NULL, `NULL != 1` is NULL, and a
NULL clause filters the row out).  The matcher therefore does not
accept exactly the documents the server would return. -/
theorem C6_counterexample_ne_missing_field :
    clientMatches [] [⟨"a", .ne, .num 1⟩] = true ∧
    serverAccepts [] [⟨"a", .ne, .num 1⟩] = some false ∧
    (true : Bool) ≠ false :=
  ⟨rfl, rfl, by decide⟩

/-! Equivalence on the well-behaved fragment. -/

/-- Two values of the same scalar type (number, string or boolean). -/
def scalarsSameType : JsonVal → JsonVal → Bool
  | .num _, .num _ => true
  | .str _, .str _ => true
  | .bool _, .bool _ => true
  | _, _ => false

/-- Two values orderable the same way on both sides (numbers or
strings). -/
def comparableSameType : JsonVal → JsonVal → Bool
  | .num _, .num _ => true
  | .str _, .str _ => true
  | _, _ => false

/-- A nonempty, dot-free alphanumeric field name: accepted by the
server's whitelist, and naming the same top-level field on both
sides. -/
def validFieldPlain (s : String) : Bool :=
  !s.toList.isEmpty && s.toList.all Char.isAlphanum

/-- The fragment on which client and server agree: a plain field name,
no `LIKE`, the field present in the document, and operand types
matching the operator (same-type scalars for `==`/`!=`, numbers or
strings for the orderings, a nonempty same-scalar-type list for `in`,
and a same-scalar-type element test for `array-contains`). -/
def wellBehaved (doc : List (String × JsonVal)) (f : QFilter) : Bool :=
  validFieldPlain f.field &&
  match f.op, lookupKey doc f.field, f.value with
  | .eq, some dv, v => scalarsSameType dv v
  | .ne, some dv, v => scalarsSameType dv v
  | .lt, some dv, v => comparableSameType dv v
  | .le, some dv, v => comparableSameType dv v
  | .gt, some dv, v => comparableSameType dv v
  | .ge, some dv, v => comparableSameType dv v
  | .inOp, some dv, .arr vs => !vs.isEmpty && vs.all (fun v => scalarsSameType dv v)
  | .arrayContains, some (.arr xs), v =>
    scalarsSameType v v && xs.all (fun x => scalarsSameType x v)
  | _, _, _ => false

theorem validFieldPlain_valid (s : String) (h : validFieldPlain s = true) :
    validField s = true := by
  unfold validFieldPlain at h
  unfold validField
  obtain ⟨h1, h2⟩ := Bool.and_eq_true_iff.mp h
  refine Bool.and_eq_true_iff.mpr ⟨h1, ?_⟩
  rw [List.all_eq_true] at h2 ⊢
  intro c hc
  simp [h2 c hc]

theorem jsEqVal_comm (a b : JsonVal) : jsEqVal a b = jsEqVal b a := by
  cases a <;> cases b <;>
    first
    | rfl
    | (rename_i x y
       by_cases h : x = y
       · simp [jsEqVal, h]
       · simp [jsEqVal, beq_false_of_ne h, beq_false_of_ne (Ne.symm h)])

theorem sqlExtract_scalar (doc : List (String × JsonVal)) (field : String)
    (dv : JsonVal) (hdv : lookupKey doc field = some dv)
    (hs : scalarsSameType dv dv = true) : sqlExtract doc field = bindVal dv := by
  cases dv <;> simp [scalarsSameType] at hs <;> simp [sqlExtract, hdv, bindVal]

theorem sqlEq_bind_scalars (dv v : JsonVal) (h : scalarsSameType dv v = true) :
    sqlEq (bindVal dv) (bindVal v) = some (jsEqVal dv v) := by
  cases dv <;> cases v <;> simp [scalarsSameType] at h <;>
    first
    | rfl
    | (rename_i a b
       cases a <;> cases b <;> rfl)

theorem sqlLt_bind_comparable (dv v : JsonVal) (h : comparableSameType dv v = true) :
    sqlLt (bindVal dv) (bindVal v) = some (jsLt (some dv) v) := by
  cases dv <;> cases v <;> simp [comparableSameType] at h <;> rfl

theorem scalarsSameType_refl_left (dv v : JsonVal) (h : scalarsSameType dv v = true) :
    scalarsSameType dv dv = true := by
  cases dv <;> cases v <;> simp [scalarsSameType] at h ⊢

theorem comparable_scalar (dv v : JsonVal) (h : comparableSameType dv v = true) :
    scalarsSameType dv dv = true := by
  cases dv <;> cases v <;> simp [comparableSameType] at h <;> simp [scalarsSameType]

theorem comparableSameType_symm (dv v : JsonVal) (h : comparableSameType dv v = true) :
    comparableSameType v dv = true := by
  cases dv <;> cases v <;> simp [comparableSameType] at h ⊢

theorem sqlIn_bind_scalars (dv : JsonVal) (vs : List JsonVal)
    (h : ∀ v ∈ vs, scalarsSameType dv v = true) :
    sqlIn (bindVal dv) (vs.map bindVal) = some (vs.any (fun v => jsEqVal v dv)) := by
  induction vs with
  | nil => rfl
  | cons v rest ih =>
    have hv := h v (List.mem_cons_self v rest)
    have hrest := ih (fun x hx => h x (List.mem_cons_of_mem v hx))
    rw [List.map_cons]
    rw [show sqlIn (bindVal dv) (bindVal v :: rest.map bindVal) =
        (match sqlEq (bindVal dv) (bindVal v) with
         | some true => some true
         | some false => sqlIn (bindVal dv) (rest.map bindVal)
         | none =>
           match sqlIn (bindVal dv) (rest.map bindVal) with
           | some true => some true
           | _ => none) from rfl]
    rw [sqlEq_bind_scalars dv v hv]
    cases he : jsEqVal dv v with
    | true =>
      have : jsEqVal v dv = true := by rw [jsEqVal_comm]; exact he
      simp [List.any_cons, this]
    | false =>
      have : jsEqVal v dv = false := by rw [jsEqVal_comm]; exact he
      simp [List.any_cons, this, hrest]

theorem list_any_congr {α : Type} (l : List α) (f g : α → Bool)
    (h : ∀ a ∈ l, f a = g a) : l.any f = l.any g := by
  induction l with
  | nil => rfl
  | cons a rest ih =>
    simp only [List.any_cons, h a (List.mem_cons_self a rest),
      ih (fun x hx => h x (List.mem_cons_of_mem a hx))]

/-- Per-filter equivalence on the well-behaved fragment: the compiled
clause evaluates (to a non-NULL boolean) exactly as the client's switch
does. -/
theorem clause_equiv (doc : List (String × JsonVal)) (f : QFilter)
    (h : wellBehaved doc f = true) :
    compileClause doc f = .val (some (clientFilterPass doc f)) := by
  obtain ⟨field, op, value⟩ := f
  simp only [wellBehaved] at h
  obtain ⟨hvf, hm⟩ := Bool.and_eq_true_iff.mp h
  have hvalid : validField field = true := validFieldPlain_valid field hvf
  cases op with
  | eq =>
    cases hdv : lookupKey doc field with
    | none => rw [hdv] at hm; simp at hm
    | some dv =>
      rw [hdv] at hm
      have hex : sqlExtract doc field = bindVal dv :=
        sqlExtract_scalar doc field dv hdv (scalarsSameType_refl_left dv value hm)
      simp only [compileClause, hvalid, Bool.not_true, Bool.false_eq_true, if_false,
        clientFilterPass, hdv, jsStrictEq]
      rw [hex, sqlEq_bind_scalars dv value hm]
  | ne =>
    cases hdv : lookupKey doc field with
    | none => rw [hdv] at hm; simp at hm
    | some dv =>
      rw [hdv] at hm
      have hex : sqlExtract doc field = bindVal dv :=
        sqlExtract_scalar doc field dv hdv (scalarsSameType_refl_left dv value hm)
      simp only [compileClause, hvalid, Bool.not_true, Bool.false_eq_true, if_false,
        clientFilterPass, hdv, jsStrictEq, sqlNe]
      rw [hex, sqlEq_bind_scalars dv value hm]
      rfl
  | lt =>
    cases hdv : lookupKey doc field with
    | none => rw [hdv] at hm; simp at hm
    | some dv =>
      rw [hdv] at hm
      have hex : sqlExtract doc field = bindVal dv :=
        sqlExtract_scalar doc field dv hdv (comparable_scalar dv value hm)
      simp only [compileClause, hvalid, Bool.not_true, Bool.false_eq_true, if_false,
        clientFilterPass, hdv]
      rw [hex, sqlLt_bind_comparable dv value hm]
  | gt =>
    cases hdv : lookupKey doc field with
    | none => rw [hdv] at hm; simp at hm
    | some dv =>
      rw [hdv] at hm
      have hex : sqlExtract doc field = bindVal dv :=
        sqlExtract_scalar doc field dv hdv (comparable_scalar dv value hm)
      simp only [compileClause, hvalid, Bool.not_true, Bool.false_eq_true, if_false,
        clientFilterPass, hdv, sqlGt]
      rw [hex, sqlLt_bind_comparable value dv (comparableSameType_symm dv value hm)]
      cases dv <;> cases value <;> simp [comparableSameType] at hm <;> rfl
  | le =>
    cases hdv : lookupKey doc field with
    | none => rw [hdv] at hm; simp at hm
    | some dv =>
      rw [hdv] at hm
      have hex : sqlExtract doc field = bindVal dv :=
        sqlExtract_scalar doc field dv hdv (comparable_scalar dv value hm)
      simp only [compileClause, hvalid, Bool.not_true, Bool.false_eq_true, if_false,
        clientFilterPass, hdv, sqlLe]
      rw [hex, sqlLt_bind_comparable value dv (comparableSameType_symm dv value hm)]
      cases dv <;> cases value <;> simp [comparableSameType] at hm <;>
        simp [jsLt, jsLe, Option.map_some', ← decide_not, decide_eq_decide, not_lt]
  | ge =>
    cases hdv : lookupKey doc field with
    | none => rw [hdv] at hm; simp at hm
    | some dv =>
      rw [hdv] at hm
      have hex : sqlExtract doc field = bindVal dv :=
        sqlExtract_scalar doc field dv hdv (comparable_scalar dv value hm)
      simp only [compileClause, hvalid, Bool.not_true, Bool.false_eq_true, if_false,
        clientFilterPass, hdv, sqlGe]
      rw [hex, sqlLt_bind_comparable dv value hm]
      cases dv <;> cases value <;> simp [comparableSameType] at hm <;>
        simp [jsLt, jsGe, Option.map_some', ← decide_not, decide_eq_decide, not_lt]
  | inOp =>
    cases hdv : lookupKey doc field with
    | none =>
      rw [hdv] at hm
      cases value <;> simp at hm
    | some dv =>
      rw [hdv] at hm
      cases value with
      | arr vs =>
        obtain ⟨hne, hall⟩ := Bool.and_eq_true_iff.mp hm
        have hvs : vs ≠ [] := by
          intro hc
          rw [hc] at hne
          simp at hne
        have hex : sqlExtract doc field = bindVal dv := by
          apply sqlExtract_scalar doc field dv hdv
          cases hvs' : vs with
          | nil => exact absurd hvs' hvs
          | cons v rest =>
            have := List.all_eq_true.mp hall v (by rw [hvs']; exact List.mem_cons_self v rest)
            exact scalarsSameType_refl_left dv v this
        simp only [compileClause, hvalid, Bool.not_true, Bool.false_eq_true, if_false,
          clientFilterPass, hdv]
        cases vs with
        | nil => exact absurd rfl hvs
        | cons v rest =>
          rw [hex, sqlIn_bind_scalars dv (v :: rest)
            (fun x hx => List.all_eq_true.mp hall x hx)]
      | null => simp at hm
      | bool b => simp at hm
      | num n => simp at hm
      | str s => simp at hm
      | obj fs => simp at hm
  | arrayContains =>
    cases hdv : lookupKey doc field with
    | none => rw [hdv] at hm; simp at hm
    | some dv =>
      rw [hdv] at hm
      cases dv with
      | arr xs =>
        obtain ⟨hscal, hall⟩ := Bool.and_eq_true_iff.mp hm
        simp only [compileClause, hvalid, Bool.not_true, Bool.false_eq_true, if_false,
          clientFilterPass, hdv, sqlArrayContains]
        have hsame : (xs.any fun x => (sqlEq (bindVal x) (bindVal value)).getD false) =
            (xs.any fun x => jsEqVal x value) := by
          apply list_any_congr
          intro x hx
          rw [sqlEq_bind_scalars x value (List.all_eq_true.mp hall x hx)]
          rfl
        rw [hsame]
      | null => simp at hm
      | bool b => simp at hm
      | num n => simp at hm
      | str s => simp at hm
      | obj fs => simp at hm
  | like =>
    cases hdv : lookupKey doc field <;> rw [hdv] at hm <;> simp at hm

theorem serverAccepts_eq_clientMatches (doc : List (String × JsonVal))
    (filters : List QFilter) (h : ∀ f ∈ filters, wellBehaved doc f = true) :
    serverAccepts doc filters = some (clientMatches doc filters) := by
  induction filters with
  | nil => rfl
  | cons f rest ih =>
    have hf := clause_equiv doc f (h f (List.mem_cons_self f rest))
    have hrest := ih (fun x hx => h x (List.mem_cons_of_mem f hx))
    rw [show serverAccepts doc (f :: rest) =
        (match compileClause doc f with
         | .skip => serverAccepts doc rest
         | .err => none
         | .val ob =>
           match serverAccepts doc rest with
           | none => none
           | some b => some ((ob.getD false) && b)) from rfl]
    rw [hf, hrest]
    simp [clientMatches, List.all_cons]

/-- C6 (amended).  On the well-behaved fragment — plain alphanumeric
field names, the field present in the document, no `LIKE`, and operand
types matching the operator on both sides (`wellBehaved`) — the
client's local matcher accepts a document exactly when the server-side
compiled query returns it.  Outside that fragment the two sides
genuinely disagree (`LIKE` filters, missing fields under `!=`, dropped
invalid field names, type-coercing comparisons). -/
theorem C6_matcher_iff_server (doc : List (String × JsonVal))
    (filters : List QFilter) (h : ∀ f ∈ filters, wellBehaved doc f = true) :
    (clientMatches doc filters = true ↔ serverAccepts doc filters = some true) := by
  rw [serverAccepts_eq_clientMatches doc filters h]
  constructor
  · intro hc
    rw [hc]
  · intro hs
    exact Option.some.inj hs

/-- A concrete document and filter list in the well-behaved fragment. -/
def docC6W : List (String × JsonVal) :=
  [("status", .str "active"), ("n", .num 5)]

/-- Concrete filters: `status == "active" AND n > 3`. -/
def fsC6W : List QFilter :=
  [⟨"status", .eq, .str "active"⟩, ⟨"n", .gt, .num 3⟩]

/-- Witness for C6 (amended): on `docC6W` and `fsC6W` the local matcher
accepts and the compiled query indeed returns the document. -/
theorem C6_witness : serverAccepts docC6W fsC6W = some true := by
  have h := C6_matcher_iff_server docC6W fsC6W (by decide)
  exact h.mp (by decide)

end Telestack
